import Mathlib

/-!
# Verification of the urbs model-formulation engine (urbs.py)

This file gives a shallow embedding of the model-building core of `urbs.py`:
the linear-program assembly performed by `create_model`, together with the
helper functions `commodity_balance` and `annuity_factor`.

Linear expressions over the model's decision variables are represented as a
coefficient function `MVar → ℚ` plus a constant term.  Each Pyomo rule
function of `create_model` is embedded as a Lean function producing a
constraint (or `none` for `pyomo.Constraint.Skip`), and each constraint
declaration as the list of constraints it generates.  Input tables are lists
of rows; iterating over the index tuples of a table together with `.loc`
attribute lookups is modelled by iterating over the rows themselves (the
data model guarantees unique keys).  Timestep identifiers are integers, as
the storage state rule performs arithmetic (`t-1`) on them.
-/

namespace Urbs

/-- Decision variables of the urbs model, one constructor per `pyomo.Var`
declaration in `create_model`.  Time-dependent variables carry the timestep,
entity-indexed variables carry the entity's key tuple. -/
inductive MVar : Type
  | cap_pro (sit pro coin cout : String)
  | cap_pro_new (sit pro coin cout : String)
  | cap_tra (sin sout tra com : String)
  | cap_tra_new (sin sout tra com : String)
  | cap_sto_c (sit sto com : String)
  | cap_sto_c_new (sit sto com : String)
  | cap_sto_p (sit sto com : String)
  | cap_sto_p_new (sit sto com : String)
  | co2_pro_out (tm : ℤ) (sit pro coin cout : String)
  | costs (cost_type : String)
  | e_co_stock (tm : ℤ) (sit com com_type : String)
  | e_pro_in (tm : ℤ) (sit pro coin cout : String)
  | e_pro_out (tm : ℤ) (sit pro coin cout : String)
  | e_tra_in (tm : ℤ) (sin sout tra com : String)
  | e_tra_out (tm : ℤ) (sin sout tra com : String)
  | e_sto_in (tm : ℤ) (sit sto com : String)
  | e_sto_out (tm : ℤ) (sit sto com : String)
  | e_sto_con (t : ℤ) (sit sto com : String)
deriving DecidableEq

/-- A linear (affine) expression over model variables: a coefficient for
every variable plus a constant term.  This is the abstract form of the
expressions the Pyomo rules build. -/
structure LinExpr : Type where
  coeff : MVar → ℚ
  const : ℚ

namespace LinExpr

/-- The zero expression. -/
def zero : LinExpr := ⟨fun _ => 0, 0⟩

/-- A single variable with coefficient 1. -/
def ofVar (v : MVar) : LinExpr := ⟨fun w => if w = v then 1 else 0, 0⟩

/-- A constant expression. -/
def ofConst (q : ℚ) : LinExpr := ⟨fun _ => 0, q⟩

/-- Sum of two expressions. -/
def add (a b : LinExpr) : LinExpr := ⟨fun v => a.coeff v + b.coeff v, a.const + b.const⟩

/-- Negation of an expression. -/
def neg (a : LinExpr) : LinExpr := ⟨fun v => - a.coeff v, - a.const⟩

/-- Difference of two expressions. -/
def sub (a b : LinExpr) : LinExpr := add a (neg b)

/-- Multiplication of an expression by a scalar (on the right, as in
`expr * scalar` in the source). -/
def scale (a : LinExpr) (q : ℚ) : LinExpr := ⟨fun v => a.coeff v * q, a.const * q⟩

/-- Division of an expression by a scalar, as in `expr / scalar`. -/
def divc (a : LinExpr) (q : ℚ) : LinExpr := scale a q⁻¹

instance : Zero LinExpr := ⟨zero⟩
instance : Add LinExpr := ⟨add⟩
instance : Neg LinExpr := ⟨neg⟩
instance : Sub LinExpr := ⟨sub⟩

/-- Sum of a list of expressions. -/
def sumE (l : List LinExpr) : LinExpr := l.foldr add zero

end LinExpr

open LinExpr


/-! ## Input data model

One structure per input table of `create_model`, carrying the key columns
and the attribute columns the rules read. -/

/-- A row of the Commodity table, keyed by (Sit, Com, Type). -/
structure ComRow : Type where
  sit : String
  com : String
  typ : String
  max : ℚ
  maxperstep : ℚ
  price : ℚ
deriving DecidableEq

/-- A row of the Process table, keyed by (Sit, Pro, CoIn, CoOut). -/
structure ProRow : Type where
  sit : String
  pro : String
  coin : String
  cout : String
  eff : ℚ
  co2 : ℚ
  cap_lo : ℚ
  cap_up : ℚ
  inst_cap : ℚ
  inv_cost : ℚ
  fix_cost : ℚ
  var_cost : ℚ
  annuity_factor : ℚ
deriving DecidableEq

/-- A row of the Transmission table, keyed by (SitIn, SitOut, Tra, Com). -/
structure TraRow : Type where
  sitin : String
  sitout : String
  tra : String
  com : String
  eff : ℚ
  cap_lo : ℚ
  cap_up : ℚ
  inst_cap : ℚ
  inv_cost : ℚ
  fix_cost : ℚ
  var_cost : ℚ
  annuity_factor : ℚ
deriving DecidableEq

/-- A row of the Storage table, keyed by (Sit, Sto, Com). -/
structure StoRow : Type where
  sit : String
  sto : String
  com : String
  eff_in : ℚ
  eff_out : ℚ
  cap_lo_c : ℚ
  cap_up_c : ℚ
  cap_lo_p : ℚ
  cap_up_p : ℚ
  inst_cap_c : ℚ
  inst_cap_p : ℚ
  init : ℚ
  inv_cost_p : ℚ
  inv_cost_c : ℚ
  fix_cost_p : ℚ
  fix_cost_c : ℚ
  var_cost_p : ℚ
  var_cost_c : ℚ
  annuity_factor : ℚ
deriving DecidableEq

/-- The input data handed to `create_model`: the four entity tables plus the
demand and intermittent-supply timeseries (total lookup functions indexed by
timestep, site and commodity, standing for `m.demand.loc[tm][sit, com]` and
`m.supim.loc[tm][sit, com]`). -/
structure Data : Type where
  commodity : List ComRow
  process : List ProRow
  transmission : List TraRow
  storage : List StoRow
  demand : ℤ → String → String → ℚ
  supim : ℤ → String → String → ℚ

/-! ## Derived sets and parameters -/

/-- `m.tm`: the modelled timesteps, `timesteps[1:]`. -/
def tmSteps (timesteps : List ℤ) : List ℤ := timesteps.drop 1

/-- `com in m.com_supim`: the commodity name appears in some Commodity row of
type `SupIm` (cross-site union, as the subset is built from names only). -/
def com_supim (d : Data) (com : String) : Bool :=
  d.commodity.any (fun c => c.com = com ∧ c.typ = "SupIm")

/-- `com in m.com_stock`: the commodity name appears in some Commodity row of
type `Stock`. -/
def com_stock (d : Data) (com : String) : Bool :=
  d.commodity.any (fun c => c.com = com ∧ c.typ = "Stock")

/-- `com in m.com_demand`: the commodity name appears in some Commodity row of
type `Demand`. -/
def com_demand (d : Data) (com : String) : Bool :=
  d.commodity.any (fun c => c.com = com ∧ c.typ = "Demand")

/-- `m.cost_type`: the hard-coded cost-type set. -/
def cost_type : List String := ["Inv", "Fix", "Var", "Fuel"]

/-- `m.weight = 8760 / (len(m.t) * dt)`: extrapolation factor from the
simulated horizon (`len(m.t)` timesteps of duration `dt` hours) to a year. -/
def weight (timesteps : List ℤ) (dt : ℚ) : ℚ :=
  8760 / (timesteps.length * dt)

/-! ## Commodity balance (`commodity_balance` in urbs.py) -/

/-- One step of the process loop of `commodity_balance`: usage as process
input increases the balance, process output decreases it. -/
def proStep (tm : ℤ) (sit com : String) (b : LinExpr) (p : ProRow) : LinExpr :=
  let b := if p.sit = sit ∧ p.coin = com then
    b + ofVar (.e_pro_in tm p.sit p.pro p.coin p.cout) else b
  if p.sit = sit ∧ p.cout = com then
    b - ofVar (.e_pro_out tm p.sit p.pro p.coin p.cout) else b

/-- One step of the transmission loop of `commodity_balance`: exports
increase the balance, imports decrease it. -/
def traStep (tm : ℤ) (sit com : String) (b : LinExpr) (t : TraRow) : LinExpr :=
  let b := if t.sitin = sit ∧ t.com = com then
    b + ofVar (.e_tra_in tm t.sitin t.sitout t.tra t.com) else b
  if t.sitout = sit ∧ t.com = com then
    b - ofVar (.e_tra_out tm t.sitin t.sitout t.tra t.com) else b

/-- One step of the storage loop of `commodity_balance`: storage input
increases consumption, storage output decreases it. -/
def stoStep (tm : ℤ) (sit com : String) (b : LinExpr) (s : StoRow) : LinExpr :=
  if s.sit = sit ∧ s.com = com then
    b + ofVar (.e_sto_in tm s.sit s.sto s.com)
      - ofVar (.e_sto_out tm s.sit s.sto s.com)
  else b

/-- `commodity_balance(m, tm, sit, com)`: net consumed (positive) or
provided (negative) power of commodity `com` at site `sit` and timestep
`tm`, accumulated over all process, transmission and storage tuples. -/
def commodity_balance (d : Data) (tm : ℤ) (sit com : String) : LinExpr :=
  let balance : LinExpr := 0
  let balance := d.process.foldl (proStep tm sit com) balance
  let balance := d.transmission.foldl (traStep tm sit com) balance
  let balance := d.storage.foldl (stoStep tm sit com) balance
  balance

/-- The commodity balance as the specification states it: a signed sum of
the input/output flow variables of the matching processes, transmission
links and storage units, each family selected by a filter. -/
def balance_spec (d : Data) (tm : ℤ) (sit com : String) : LinExpr :=
  sumE (((d.process.filter (fun p => p.sit = sit ∧ p.coin = com)).map
      (fun p => ofVar (.e_pro_in tm p.sit p.pro p.coin p.cout))))
  - sumE (((d.process.filter (fun p => p.sit = sit ∧ p.cout = com)).map
      (fun p => ofVar (.e_pro_out tm p.sit p.pro p.coin p.cout))))
  + sumE (((d.transmission.filter (fun t => t.sitin = sit ∧ t.com = com)).map
      (fun t => ofVar (.e_tra_in tm t.sitin t.sitout t.tra t.com))))
  - sumE (((d.transmission.filter (fun t => t.sitout = sit ∧ t.com = com)).map
      (fun t => ofVar (.e_tra_out tm t.sitin t.sitout t.tra t.com))))
  + sumE (((d.storage.filter (fun s => s.sit = sit ∧ s.com = com)).map
      (fun s => ofVar (.e_sto_in tm s.sit s.sto s.com))))
  - sumE (((d.storage.filter (fun s => s.sit = sit ∧ s.com = com)).map
      (fun s => ofVar (.e_sto_out tm s.sit s.sto s.com))))

/-- Net contribution of one process row to the balance. -/
def proContrib (tm : ℤ) (sit com : String) (p : ProRow) : LinExpr :=
  (if p.sit = sit ∧ p.coin = com then
    ofVar (.e_pro_in tm p.sit p.pro p.coin p.cout) else 0)
  - (if p.sit = sit ∧ p.cout = com then
    ofVar (.e_pro_out tm p.sit p.pro p.coin p.cout) else 0)

/-- Net contribution of one transmission row to the balance. -/
def traContrib (tm : ℤ) (sit com : String) (t : TraRow) : LinExpr :=
  (if t.sitin = sit ∧ t.com = com then
    ofVar (.e_tra_in tm t.sitin t.sitout t.tra t.com) else 0)
  - (if t.sitout = sit ∧ t.com = com then
    ofVar (.e_tra_out tm t.sitin t.sitout t.tra t.com) else 0)

/-- Net contribution of one storage row to the balance. -/
def stoContrib (tm : ℤ) (sit com : String) (s : StoRow) : LinExpr :=
  (if s.sit = sit ∧ s.com = com then
    ofVar (.e_sto_in tm s.sit s.sto s.com) else 0)
  - (if s.sit = sit ∧ s.com = com then
    ofVar (.e_sto_out tm s.sit s.sto s.com) else 0)

/-! ## Constraints -/

/-- A constraint of the assembled linear program: an equality, a one-sided
inequality, or a two-sided range `lo <= expr <= hi` (the tuple form returned
by the capacity-bound rules). -/
inductive Con : Type
  | eqC (lhs rhs : LinExpr)
  | leC (lhs rhs : LinExpr)
  | geC (lhs rhs : LinExpr)
  | rangeC (lo : ℚ) (e : LinExpr) (hi : ℚ)

/-! ## Annuity factor (`annuity_factor` in urbs.py) -/

/-- `annuity_factor(n, i) = (1+i)**n * i / ((1+i)**n - 1)`, the value of the
expression the source returns (total, with `x/0 = 0` as in Lean's field
division). -/
def annuity_factor (n : ℤ) (i : ℚ) : ℚ :=
  (1 + i) ^ n * i / ((1 + i) ^ n - 1)

/-- `annuity_factor` with the failure behaviour of the source's scalar
evaluation: Python raises `ZeroDivisionError` exactly when the denominator
`(1+i)**n - 1` is zero, and otherwise returns the formula's value. -/
def annuity_factor_checked (n : ℤ) (i : ℚ) : Except String ℚ :=
  if (1 + i) ^ n - 1 = 0 then .error "ZeroDivisionError"
  else .ok (annuity_factor n i)

/-! ## Rule functions of `create_model`

One Lean function per Pyomo rule function; `pyomo.Constraint.Skip` becomes
`none`. -/

/-- `res_demand_rule`: for demand commodities, provided power (the negated
balance) must cover the demand timeseries. -/
def res_demand_rule (d : Data) (tm : ℤ) (c : ComRow) : Option Con :=
  if com_demand d c.com then
    some (.geC (- commodity_balance d tm c.sit c.com)
      (ofConst (d.demand tm c.sit c.com)))
  else none

/-- `def_e_co_stock_rule`: for stock commodities, the stock source variable
equals the commodity balance. -/
def def_e_co_stock_rule (d : Data) (tm : ℤ) (c : ComRow) : Option Con :=
  if com_stock d c.com then
    some (.eqC (ofVar (.e_co_stock tm c.sit c.com c.typ))
      (commodity_balance d tm c.sit c.com))
  else none

/-- `res_stock_step_rule`: hourly stock purchase is capped by
`commodity.maxperstep`. -/
def res_stock_step_rule (d : Data) (tm : ℤ) (c : ComRow) : Option Con :=
  if com_stock d c.com then
    some (.leC (ofVar (.e_co_stock tm c.sit c.com c.typ)) (ofConst c.maxperstep))
  else none

/-- `res_stock_total_rule`: total annual stock consumption, the per-timestep
purchases times `dt` summed over the modelled timesteps and scaled by the
annualisation weight, is capped by `commodity.max`. -/
def res_stock_total_rule (d : Data) (ts : List ℤ) (dt : ℚ) (c : ComRow) :
    Option Con :=
  if com_stock d c.com then
    let total := (tmSteps ts).foldl
      (fun b tm => b + (ofVar (.e_co_stock tm c.sit c.com c.typ)).scale dt) 0
    let total := total.scale (weight ts dt)
    some (.leC total (ofConst c.max))
  else none

/-- `def_process_capacity_rule`: total capacity = new capacity + installed. -/
def def_process_capacity_rule (p : ProRow) : Con :=
  .eqC (ofVar (.cap_pro p.sit p.pro p.coin p.cout))
    (ofVar (.cap_pro_new p.sit p.pro p.coin p.cout) + ofConst p.inst_cap)

/-- `def_process_output_rule`: output = input * efficiency. -/
def def_process_output_rule (tm : ℤ) (p : ProRow) : Con :=
  .eqC (ofVar (.e_pro_out tm p.sit p.pro p.coin p.cout))
    ((ofVar (.e_pro_in tm p.sit p.pro p.coin p.cout)).scale p.eff)

/-- `def_intermittent_supply_rule`: when the input commodity is
supply-intermittent, the input flow equals total capacity times the
availability timeseries; otherwise no constraint is generated. -/
def def_intermittent_supply_rule (d : Data) (tm : ℤ) (p : ProRow) : Option Con :=
  if com_supim d p.coin then
    some (.eqC (ofVar (.e_pro_in tm p.sit p.pro p.coin p.cout))
      ((ofVar (.cap_pro p.sit p.pro p.coin p.cout)).scale (d.supim tm p.sit p.coin)))
  else none

/-- `def_co2_emissions_rule`: CO2 output = input * co2 rate * dt. -/
def def_co2_emissions_rule (dt : ℚ) (tm : ℤ) (p : ProRow) : Con :=
  .eqC (ofVar (.co2_pro_out tm p.sit p.pro p.coin p.cout))
    (((ofVar (.e_pro_in tm p.sit p.pro p.coin p.cout)).scale p.co2).scale dt)

/-- `res_process_output_by_capacity_rule`: output <= total capacity, for
every process tuple and modelled timestep (no skip condition). -/
def res_process_output_by_capacity_rule (tm : ℤ) (p : ProRow) : Con :=
  .leC (ofVar (.e_pro_out tm p.sit p.pro p.coin p.cout))
    (ofVar (.cap_pro p.sit p.pro p.coin p.cout))

/-- `res_process_capacity_rule`: cap-lo <= total capacity <= cap-up. -/
def res_process_capacity_rule (p : ProRow) : Con :=
  .rangeC p.cap_lo (ofVar (.cap_pro p.sit p.pro p.coin p.cout)) p.cap_up

/-- `def_transmission_capacity_rule`. -/
def def_transmission_capacity_rule (t : TraRow) : Con :=
  .eqC (ofVar (.cap_tra t.sitin t.sitout t.tra t.com))
    (ofVar (.cap_tra_new t.sitin t.sitout t.tra t.com) + ofConst t.inst_cap)

/-- `def_transmission_output_rule`. -/
def def_transmission_output_rule (tm : ℤ) (t : TraRow) : Con :=
  .eqC (ofVar (.e_tra_out tm t.sitin t.sitout t.tra t.com))
    ((ofVar (.e_tra_in tm t.sitin t.sitout t.tra t.com)).scale t.eff)

/-- `res_transmission_input_by_capacity_rule`. -/
def res_transmission_input_by_capacity_rule (tm : ℤ) (t : TraRow) : Con :=
  .leC (ofVar (.e_tra_in tm t.sitin t.sitout t.tra t.com))
    (ofVar (.cap_tra t.sitin t.sitout t.tra t.com))

/-- `res_transmission_capacity_rule`. -/
def res_transmission_capacity_rule (t : TraRow) : Con :=
  .rangeC t.cap_lo (ofVar (.cap_tra t.sitin t.sitout t.tra t.com)) t.cap_up

/-- `res_transmission_symmetry_rule`: the total capacity of a transmission
tuple equals the total capacity of the mirrored tuple. -/
def res_transmission_symmetry_rule (t : TraRow) : Con :=
  .eqC (ofVar (.cap_tra t.sitin t.sitout t.tra t.com))
    (ofVar (.cap_tra t.sitout t.sitin t.tra t.com))

/-- `def_storage_state_rule`: storage content at `t` equals the content at
`t-1` (integer arithmetic on the timestep label, exactly as the source
subscripts `m.e_sto_con[t-1, ...]`) plus scaled input minus scaled output. -/
def def_storage_state_rule (dt : ℚ) (t : ℤ) (s : StoRow) : Con :=
  .eqC (ofVar (.e_sto_con t s.sit s.sto s.com))
    (ofVar (.e_sto_con (t - 1) s.sit s.sto s.com)
      + ((ofVar (.e_sto_in t s.sit s.sto s.com)).scale s.eff_in).scale dt
      - ((ofVar (.e_sto_out t s.sit s.sto s.com)).divc s.eff_out).scale dt)

/-- `def_storage_power_rule`. -/
def def_storage_power_rule (s : StoRow) : Con :=
  .eqC (ofVar (.cap_sto_p s.sit s.sto s.com))
    (ofVar (.cap_sto_p_new s.sit s.sto s.com) + ofConst s.inst_cap_p)

/-- `def_storage_capacity_rule`. -/
def def_storage_capacity_rule (s : StoRow) : Con :=
  .eqC (ofVar (.cap_sto_c s.sit s.sto s.com))
    (ofVar (.cap_sto_c_new s.sit s.sto s.com) + ofConst s.inst_cap_c)

/-- `res_storage_input_by_power_rule`. -/
def res_storage_input_by_power_rule (t : ℤ) (s : StoRow) : Con :=
  .leC (ofVar (.e_sto_in t s.sit s.sto s.com))
    (ofVar (.cap_sto_p s.sit s.sto s.com))

/-- `res_storage_output_by_power_rule`. -/
def res_storage_output_by_power_rule (t : ℤ) (s : StoRow) : Con :=
  .leC (ofVar (.e_sto_out t s.sit s.sto s.com))
    (ofVar (.cap_sto_p s.sit s.sto s.com))

/-- `res_storage_state_by_capacity_rule`. -/
def res_storage_state_by_capacity_rule (t : ℤ) (s : StoRow) : Con :=
  .leC (ofVar (.e_sto_con t s.sit s.sto s.com))
    (ofVar (.cap_sto_c s.sit s.sto s.com))

/-- `res_storage_power_rule`. -/
def res_storage_power_rule (s : StoRow) : Con :=
  .rangeC s.cap_lo_p (ofVar (.cap_sto_p s.sit s.sto s.com)) s.cap_up_p

/-- `res_storage_capacity_rule`. -/
def res_storage_capacity_rule (s : StoRow) : Con :=
  .rangeC s.cap_lo_c (ofVar (.cap_sto_c s.sit s.sto s.com)) s.cap_up_c

/-- `res_initial_and_final_storage_state_rule`: at the first timestep of the
horizon (`m.t[1]`) an equality, at the last (`m.t[len(m.t)]`) a lower-bound
inequality, against total storage capacity times the initial-fill fraction;
skipped at every other timestep. -/
def res_initial_and_final_storage_state_rule (ts : List ℤ) (t : ℤ) (s : StoRow) :
    Option Con :=
  if ts.head? = some t then
    some (.eqC (ofVar (.e_sto_con t s.sit s.sto s.com))
      ((ofVar (.cap_sto_c s.sit s.sto s.com)).scale s.init))
  else if ts.getLast? = some t then
    some (.geC (ofVar (.e_sto_con t s.sit s.sto s.com))
      ((ofVar (.cap_sto_c s.sit s.sto s.com)).scale s.init))
  else none

/-- `res_co2_emission_rule`: the weighted sum of all CO2 output variables is
capped by the `max` attribute of the Commodity row `(Global, CO2, Env)`; a
missing row is a lookup failure aborting the build. -/
def res_co2_emission_con (d : Data) (ts : List ℤ) (dt : ℚ) : Except String Con :=
  match d.commodity.find? (fun c => c.sit = "Global" ∧ c.com = "CO2" ∧ c.typ = "Env") with
  | some c => .ok (.leC
      ((sumE ((tmSteps ts).flatMap (fun tm => d.process.map
        (fun p => ofVar (.co2_pro_out tm p.sit p.pro p.coin p.cout))))).scale
        (weight ts dt))
      (ofConst c.max))
  | none => .error "KeyError: (Global, CO2, Env)"

/-- The `Inv` branch of `def_costs_rule`. -/
def inv_costs_sum (d : Data) : LinExpr :=
  sumE (d.process.map (fun p =>
    ((ofVar (.cap_pro_new p.sit p.pro p.coin p.cout)).scale p.inv_cost).scale
      p.annuity_factor))
  + sumE (d.transmission.map (fun t =>
    ((ofVar (.cap_tra_new t.sitin t.sitout t.tra t.com)).scale t.inv_cost).scale
      t.annuity_factor))
  + sumE (d.storage.map (fun s =>
    ((ofVar (.cap_sto_p_new s.sit s.sto s.com)).scale s.inv_cost_p).scale
      s.annuity_factor
    + ((ofVar (.cap_sto_c_new s.sit s.sto s.com)).scale s.inv_cost_c).scale
      s.annuity_factor))

/-- The `Fix` branch of `def_costs_rule`. -/
def fix_costs_sum (d : Data) : LinExpr :=
  sumE (d.process.map (fun p =>
    (ofVar (.cap_pro p.sit p.pro p.coin p.cout)).scale p.fix_cost))
  + sumE (d.transmission.map (fun t =>
    (ofVar (.cap_tra t.sitin t.sitout t.tra t.com)).scale t.fix_cost))
  + sumE (d.storage.map (fun s =>
    (ofVar (.cap_sto_p s.sit s.sto s.com)).scale s.fix_cost_p
    + (ofVar (.cap_sto_c s.sit s.sto s.com)).scale s.fix_cost_c))

/-- The `Var` branch of `def_costs_rule`. -/
def var_costs_sum (d : Data) (ts : List ℤ) (dt : ℚ) : LinExpr :=
  sumE ((tmSteps ts).flatMap (fun tm => d.process.map (fun p =>
    (((ofVar (.e_pro_out tm p.sit p.pro p.coin p.cout)).scale dt).scale
      p.var_cost).scale (weight ts dt))))
  + sumE ((tmSteps ts).flatMap (fun tm => d.transmission.map (fun t =>
    (((ofVar (.e_tra_in tm t.sitin t.sitout t.tra t.com)).scale dt).scale
      t.var_cost).scale (weight ts dt))))
  + sumE ((tmSteps ts).flatMap (fun tm => d.storage.map (fun s =>
    ((ofVar (.e_sto_con tm s.sit s.sto s.com)).scale s.var_cost_c).scale
      (weight ts dt)
    + (((ofVar (.e_sto_in tm s.sit s.sto s.com)
        + ofVar (.e_sto_out tm s.sit s.sto s.com)).scale dt).scale
      s.var_cost_p).scale (weight ts dt))))

/-- The `Fuel` branch of `def_costs_rule`: only commodity tuples whose
commodity is of stock type contribute. -/
def fuel_costs_sum (d : Data) (ts : List ℤ) (dt : ℚ) : LinExpr :=
  sumE ((tmSteps ts).flatMap (fun tm =>
    (d.commodity.filter (fun c => com_stock d c.com)).map (fun c =>
      (((ofVar (.e_co_stock tm c.sit c.com c.typ)).scale dt).scale
        c.price).scale (weight ts dt))))

/-- `def_costs_rule`: dispatch on the cost type string; any unknown cost
type raises `NotImplementedError`. -/
def def_costs_rule (d : Data) (ts : List ℤ) (dt : ℚ) (ct : String) :
    Except String Con :=
  if ct = "Inv" then .ok (.eqC (ofVar (.costs "Inv")) (inv_costs_sum d))
  else if ct = "Fix" then .ok (.eqC (ofVar (.costs "Fix")) (fix_costs_sum d))
  else if ct = "Var" then .ok (.eqC (ofVar (.costs "Var")) (var_costs_sum d ts dt))
  else if ct = "Fuel" then .ok (.eqC (ofVar (.costs "Fuel")) (fuel_costs_sum d ts dt))
  else .error "NotImplementedError: Unknown cost type."

/-- `obj_rule`: the objective is the sum of the cost variables over the
cost-type set. -/
def obj_expr : LinExpr := sumE (cost_type.map (fun ct => ofVar (.costs ct)))

/-! ## Constraint declarations

Each `m.{name} = pyomo.Constraint(sets..., ...)` declaration instantiates its
rule once per element of the index product; skipped tuples produce no
constraint. -/

/-- `m.res_demand = Constraint(m.tm, m.com_tuples)`. -/
def res_demand_cons (d : Data) (ts : List ℤ) : List Con :=
  (tmSteps ts).flatMap (fun tm => d.commodity.filterMap (res_demand_rule d tm))

/-- `m.def_e_co_stock = Constraint(m.tm, m.com_tuples)`. -/
def def_e_co_stock_cons (d : Data) (ts : List ℤ) : List Con :=
  (tmSteps ts).flatMap (fun tm => d.commodity.filterMap (def_e_co_stock_rule d tm))

/-- `m.res_stock_step = Constraint(m.tm, m.com_tuples)`. -/
def res_stock_step_cons (d : Data) (ts : List ℤ) : List Con :=
  (tmSteps ts).flatMap (fun tm => d.commodity.filterMap (res_stock_step_rule d tm))

/-- `m.res_stock_total = Constraint(m.com_tuples)`. -/
def res_stock_total_cons (d : Data) (ts : List ℤ) (dt : ℚ) : List Con :=
  d.commodity.filterMap (res_stock_total_rule d ts dt)

/-- `m.def_process_capacity = Constraint(m.pro_tuples)`. -/
def def_process_capacity_cons (d : Data) : List Con :=
  d.process.map def_process_capacity_rule

/-- `m.def_process_output = Constraint(m.tm, m.pro_tuples)`. -/
def def_process_output_cons (d : Data) (ts : List ℤ) : List Con :=
  (tmSteps ts).flatMap (fun tm => d.process.map (def_process_output_rule tm))

/-- `m.def_intermittent_supply = Constraint(m.tm, m.pro_tuples)`. -/
def def_intermittent_supply_cons (d : Data) (ts : List ℤ) : List Con :=
  (tmSteps ts).flatMap (fun tm =>
    d.process.filterMap (def_intermittent_supply_rule d tm))

/-- `m.def_co2_emissions = Constraint(m.tm, m.pro_tuples)`. -/
def def_co2_emissions_cons (d : Data) (ts : List ℤ) (dt : ℚ) : List Con :=
  (tmSteps ts).flatMap (fun tm => d.process.map (def_co2_emissions_rule dt tm))

/-- `m.res_process_output_by_capacity = Constraint(m.tm, m.pro_tuples)`. -/
def res_process_output_by_capacity_cons (d : Data) (ts : List ℤ) : List Con :=
  (tmSteps ts).flatMap (fun tm =>
    d.process.map (res_process_output_by_capacity_rule tm))

/-- `m.res_process_capacity = Constraint(m.pro_tuples)`. -/
def res_process_capacity_cons (d : Data) : List Con :=
  d.process.map res_process_capacity_rule

/-- `m.def_transmission_capacity = Constraint(m.tra_tuples)`. -/
def def_transmission_capacity_cons (d : Data) : List Con :=
  d.transmission.map def_transmission_capacity_rule

/-- `m.def_transmission_output = Constraint(m.tm, m.tra_tuples)`. -/
def def_transmission_output_cons (d : Data) (ts : List ℤ) : List Con :=
  (tmSteps ts).flatMap (fun tm =>
    d.transmission.map (def_transmission_output_rule tm))

/-- `m.res_transmission_input_by_capacity = Constraint(m.tm, m.tra_tuples)`. -/
def res_transmission_input_by_capacity_cons (d : Data) (ts : List ℤ) : List Con :=
  (tmSteps ts).flatMap (fun tm =>
    d.transmission.map (res_transmission_input_by_capacity_rule tm))

/-- `m.res_transmission_capacity = Constraint(m.tra_tuples)`. -/
def res_transmission_capacity_cons (d : Data) : List Con :=
  d.transmission.map res_transmission_capacity_rule

/-- `m.res_transmission_symmetry = Constraint(m.tra_tuples)`. -/
def res_transmission_symmetry_cons (d : Data) : List Con :=
  d.transmission.map res_transmission_symmetry_rule

/-- `m.def_storage_state = Constraint(m.tm, m.sto_tuples)`. -/
def def_storage_state_cons (d : Data) (ts : List ℤ) (dt : ℚ) : List Con :=
  (tmSteps ts).flatMap (fun tm => d.storage.map (def_storage_state_rule dt tm))

/-- `m.def_storage_power = Constraint(m.sto_tuples)`. -/
def def_storage_power_cons (d : Data) : List Con :=
  d.storage.map def_storage_power_rule

/-- `m.def_storage_capacity = Constraint(m.sto_tuples)`. -/
def def_storage_capacity_cons (d : Data) : List Con :=
  d.storage.map def_storage_capacity_rule

/-- `m.res_storage_input_by_power = Constraint(m.tm, m.sto_tuples)`. -/
def res_storage_input_by_power_cons (d : Data) (ts : List ℤ) : List Con :=
  (tmSteps ts).flatMap (fun tm =>
    d.storage.map (res_storage_input_by_power_rule tm))

/-- `m.res_storage_output_by_power = Constraint(m.tm, m.sto_tuples)`. -/
def res_storage_output_by_power_cons (d : Data) (ts : List ℤ) : List Con :=
  (tmSteps ts).flatMap (fun tm =>
    d.storage.map (res_storage_output_by_power_rule tm))

/-- `m.res_storage_state_by_capacity = Constraint(m.t, m.sto_tuples)` — note
the full timestep set, including the initial timestep. -/
def res_storage_state_by_capacity_cons (d : Data) (ts : List ℤ) : List Con :=
  ts.flatMap (fun t => d.storage.map (res_storage_state_by_capacity_rule t))

/-- `m.res_storage_power = Constraint(m.sto_tuples)`. -/
def res_storage_power_cons (d : Data) : List Con :=
  d.storage.map res_storage_power_rule

/-- `m.res_storage_capacity = Constraint(m.sto_tuples)`. -/
def res_storage_capacity_cons (d : Data) : List Con :=
  d.storage.map res_storage_capacity_rule

/-- `m.res_initial_and_final_storage_state = Constraint(m.t, m.sto_tuples)`. -/
def res_initial_and_final_storage_state_cons (d : Data) (ts : List ℤ) : List Con :=
  ts.flatMap (fun t =>
    d.storage.filterMap (res_initial_and_final_storage_state_rule ts t))

/-! ## Variable allocation -/

/-- The variables declared by the `pyomo.Var` statements of `create_model`,
all with domain `NonNegativeReals`. -/
def allocVars (d : Data) (ts : List ℤ) : List MVar :=
  d.process.map (fun p => .cap_pro p.sit p.pro p.coin p.cout)
  ++ d.process.map (fun p => .cap_pro_new p.sit p.pro p.coin p.cout)
  ++ d.transmission.map (fun t => .cap_tra t.sitin t.sitout t.tra t.com)
  ++ d.transmission.map (fun t => .cap_tra_new t.sitin t.sitout t.tra t.com)
  ++ d.storage.map (fun s => .cap_sto_c s.sit s.sto s.com)
  ++ d.storage.map (fun s => .cap_sto_c_new s.sit s.sto s.com)
  ++ d.storage.map (fun s => .cap_sto_p s.sit s.sto s.com)
  ++ d.storage.map (fun s => .cap_sto_p_new s.sit s.sto s.com)
  ++ (tmSteps ts).flatMap (fun tm =>
    d.process.map (fun p => .co2_pro_out tm p.sit p.pro p.coin p.cout))
  ++ cost_type.map (fun ct => .costs ct)
  ++ (tmSteps ts).flatMap (fun tm =>
    d.commodity.map (fun c => .e_co_stock tm c.sit c.com c.typ))
  ++ (tmSteps ts).flatMap (fun tm =>
    d.process.map (fun p => .e_pro_in tm p.sit p.pro p.coin p.cout))
  ++ (tmSteps ts).flatMap (fun tm =>
    d.process.map (fun p => .e_pro_out tm p.sit p.pro p.coin p.cout))
  ++ (tmSteps ts).flatMap (fun tm =>
    d.transmission.map (fun t => .e_tra_in tm t.sitin t.sitout t.tra t.com))
  ++ (tmSteps ts).flatMap (fun tm =>
    d.transmission.map (fun t => .e_tra_out tm t.sitin t.sitout t.tra t.com))
  ++ (tmSteps ts).flatMap (fun tm =>
    d.storage.map (fun s => .e_sto_in tm s.sit s.sto s.com))
  ++ (tmSteps ts).flatMap (fun tm =>
    d.storage.map (fun s => .e_sto_out tm s.sit s.sto s.com))
  ++ ts.flatMap (fun t =>
    d.storage.map (fun s => .e_sto_con t s.sit s.sto s.com))

/-! ## Model assembly -/

/-- The assembled model: variable list, constraint list and objective. -/
structure ModelContainer : Type where
  vars : List MVar
  cons : List Con
  obj : LinExpr

/-- All constraints generated by the declarations of `create_model` apart
from the CO2 cap and the cost constraints (which can fail to build). -/
def plainCons (d : Data) (ts : List ℤ) (dt : ℚ) : List Con :=
  res_demand_cons d ts
  ++ def_e_co_stock_cons d ts
  ++ res_stock_step_cons d ts
  ++ res_stock_total_cons d ts dt
  ++ def_process_capacity_cons d
  ++ def_process_output_cons d ts
  ++ def_intermittent_supply_cons d ts
  ++ def_co2_emissions_cons d ts dt
  ++ res_process_output_by_capacity_cons d ts
  ++ res_process_capacity_cons d
  ++ def_transmission_capacity_cons d
  ++ def_transmission_output_cons d ts
  ++ res_transmission_input_by_capacity_cons d ts
  ++ res_transmission_capacity_cons d
  ++ res_transmission_symmetry_cons d
  ++ def_storage_state_cons d ts dt
  ++ def_storage_power_cons d
  ++ def_storage_capacity_cons d
  ++ res_storage_input_by_power_cons d ts
  ++ res_storage_output_by_power_cons d ts
  ++ res_storage_state_by_capacity_cons d ts
  ++ res_storage_power_cons d
  ++ res_storage_capacity_cons d
  ++ res_initial_and_final_storage_state_cons d ts

/-- Apply an effectful rule to every element of an index list; the first
failure aborts the whole traversal, as a raised exception does. -/
def exceptMap {α β : Type} (f : α → Except String β) :
    List α → Except String (List β)
  | [] => .ok []
  | a :: l => do
      let b ← f a
      let bs ← exceptMap f l
      return b :: bs

/-- `create_model`, parameterised over the list of cost types handed to the
cost generator (the source hard-codes `cost_type`); any failing rule aborts
the build, so no partially built container is ever returned. -/
def buildModelWith (d : Data) (ts : List ℤ) (dt : ℚ) (cts : List String) :
    Except String ModelContainer := do
  let co2con ← res_co2_emission_con d ts dt
  let costCons ← exceptMap (def_costs_rule d ts dt) cts
  return { vars := allocVars d ts
           cons := plainCons d ts dt ++ [co2con] ++ costCons
           obj := obj_expr }

/-- `create_model(data, timesteps, dt)`: the build with the hard-coded cost
types. -/
def buildModel (d : Data) (ts : List ℤ) (dt : ℚ) : Except String ModelContainer :=
  buildModelWith d ts dt cost_type

/-- Whether a variable occurs with a nonzero coefficient somewhere in a
constraint. -/
def conMentions : Con → MVar → Prop
  | .eqC l r, v => l.coeff v ≠ 0 ∨ r.coeff v ≠ 0
  | .leC l r, v => l.coeff v ≠ 0 ∨ r.coeff v ≠ 0
  | .geC l r, v => l.coeff v ≠ 0 ∨ r.coeff v ≠ 0
  | .rangeC _ e _, v => e.coeff v ≠ 0

/-! ## Sample input data, used to instantiate the general theorems -/

/-- A stock commodity row. -/
def exComStock : ComRow := ⟨"A", "Coal", "Stock", 1000, 100, 7⟩

/-- A demand commodity row. -/
def exComDemand : ComRow := ⟨"A", "Elec", "Demand", 0, 0, 0⟩

/-- A supply-intermittent commodity row. -/
def exComSupim : ComRow := ⟨"A", "Wind", "SupIm", 0, 0, 0⟩

/-- The environment commodity row carrying the CO2 cap. -/
def exComEnv : ComRow := ⟨"Global", "CO2", "Env", 150000000, 0, 0⟩

/-- A coal-fired process row. -/
def exPro : ProRow := ⟨"A", "pp", "Coal", "Elec", 1/2, 1, 0, 1000, 0, 10, 1, 1, 1/10⟩

/-- A wind-turbine process row, whose input commodity is intermittent. -/
def exProWind : ProRow := ⟨"A", "wt", "Wind", "Elec", 1, 0, 0, 500, 0, 10, 1, 0, 1/10⟩

/-- A transmission row. -/
def exTra : TraRow := ⟨"A", "B", "hvac", "Elec", 9/10, 0, 100, 0, 1, 1, 1, 1/10⟩

/-- A storage row. -/
def exSto : StoRow :=
  ⟨"A", "bat", "Elec", 9/10, 4/5, 0, 100, 0, 50, 0, 0, 1/2, 1, 1, 1, 1, 1, 1, 1/10⟩

/-- A small data set combining the sample rows. -/
def exData : Data :=
  ⟨[exComStock, exComDemand, exComSupim, exComEnv], [exPro, exProWind],
   [exTra], [exSto], fun _ _ _ => 100, fun _ _ _ => 1/2⟩

/-- The model container that `create_model` assembles from the sample data
on the horizon `[0, 1]` with `dt = 1`. -/
def exModel : ModelContainer where
  vars := allocVars exData [0, 1]
  cons := plainCons exData [0, 1] 1
    ++ [Con.leC ((sumE ((tmSteps [0, 1]).flatMap (fun tm =>
          exData.process.map (fun p =>
            ofVar (.co2_pro_out tm p.sit p.pro p.coin p.cout))))).scale
          (weight [0, 1] 1)) (ofConst exComEnv.max)]
    ++ [Con.eqC (ofVar (.costs "Inv")) (inv_costs_sum exData),
        Con.eqC (ofVar (.costs "Fix")) (fix_costs_sum exData),
        Con.eqC (ofVar (.costs "Var")) (var_costs_sum exData [0, 1] 1),
        Con.eqC (ofVar (.costs "Fuel")) (fuel_costs_sum exData [0, 1] 1)]
  obj := obj_expr

/-! ## Theorems -/

/- moved theorems marker -/
section MovedTheorems

namespace LinExpr

theorem ext_iff {a b : LinExpr} :
    a = b ↔ a.coeff = b.coeff ∧ a.const = b.const := by
  constructor
  · intro h; subst h; exact ⟨rfl, rfl⟩
  · rintro ⟨h1, h2⟩; cases a; cases b; simp_all

@[simp] theorem coeff_zero (v : MVar) : (0 : LinExpr).coeff v = 0 := rfl

@[simp] theorem const_zero : (0 : LinExpr).const = 0 := rfl

@[simp] theorem coeff_add (a b : LinExpr) (v : MVar) :
    (a + b).coeff v = a.coeff v + b.coeff v := rfl

@[simp] theorem const_add (a b : LinExpr) : (a + b).const = a.const + b.const := rfl

@[simp] theorem coeff_neg (a : LinExpr) (v : MVar) : (-a).coeff v = - a.coeff v := rfl

@[simp] theorem const_neg (a : LinExpr) : (-a).const = - a.const := rfl

@[simp] theorem coeff_sub (a b : LinExpr) (v : MVar) :
    (a - b).coeff v = a.coeff v - b.coeff v := by
  show a.coeff v + -(b.coeff v) = _; ring

@[simp] theorem const_sub (a b : LinExpr) : (a - b).const = a.const - b.const := by
  show a.const + -(b.const) = _; ring

@[simp] theorem coeff_scale (a : LinExpr) (q : ℚ) (v : MVar) :
    (a.scale q).coeff v = a.coeff v * q := rfl

@[simp] theorem const_scale (a : LinExpr) (q : ℚ) : (a.scale q).const = a.const * q := rfl

@[simp] theorem coeff_divc (a : LinExpr) (q : ℚ) (v : MVar) :
    (a.divc q).coeff v = a.coeff v * q⁻¹ := rfl

@[simp] theorem coeff_ofConst (q : ℚ) (v : MVar) : (ofConst q).coeff v = 0 := rfl

@[simp] theorem const_ofConst (q : ℚ) : (ofConst q).const = q := rfl

theorem coeff_ofVar (w v : MVar) : (ofVar w).coeff v = if v = w then 1 else 0 := rfl

@[simp] theorem coeff_ofVar_self (w : MVar) : (ofVar w).coeff w = 1 := by
  simp [coeff_ofVar]

theorem coeff_ofVar_ne {w v : MVar} (h : v ≠ w) : (ofVar w).coeff v = 0 := by
  simp [coeff_ofVar, h]

@[simp] theorem const_ofVar (w : MVar) : (ofVar w).const = 0 := rfl

@[simp] theorem coeff_sumE (l : List LinExpr) (v : MVar) :
    (sumE l).coeff v = (l.map (fun e => e.coeff v)).sum := by
  induction l with
  | nil => rfl
  | cons a l ih =>
      have h : sumE (a :: l) = a + sumE l := rfl
      rw [h, coeff_add, ih]; simp

@[simp] theorem const_sumE (l : List LinExpr) :
    (sumE l).const = (l.map (fun e => e.const)).sum := by
  induction l with
  | nil => rfl
  | cons a l ih =>
      have h : sumE (a :: l) = a + sumE l := rfl
      rw [h, const_add, ih]; simp

theorem add_assoc (a b c : LinExpr) : a + b + c = a + (b + c) := by
  rw [ext_iff]; constructor
  · funext v; simp; ring
  · simp; ring

theorem add_comm (a b : LinExpr) : a + b = b + a := by
  rw [ext_iff]; constructor
  · funext v; simp; ring
  · simp; ring

theorem zero_add (a : LinExpr) : 0 + a = a := by
  rw [ext_iff]; constructor
  · funext v; simp
  · simp

theorem add_zero (a : LinExpr) : a + 0 = a := by
  rw [ext_iff]; constructor
  · funext v; simp
  · simp

end LinExpr

end MovedTheorems

theorem proStep_eq (tm : ℤ) (sit com : String) (b : LinExpr) (p : ProRow) :
    proStep tm sit com b p = b + proContrib tm sit com p := by
  simp only [proStep, proContrib]
  split_ifs <;>
    (rw [LinExpr.ext_iff]; refine ⟨funext fun v => ?_, ?_⟩ <;> simp <;> ring)

theorem traStep_eq (tm : ℤ) (sit com : String) (b : LinExpr) (t : TraRow) :
    traStep tm sit com b t = b + traContrib tm sit com t := by
  simp only [traStep, traContrib]
  split_ifs <;>
    (rw [LinExpr.ext_iff]; refine ⟨funext fun v => ?_, ?_⟩ <;> simp <;> ring)

theorem stoStep_eq (tm : ℤ) (sit com : String) (b : LinExpr) (s : StoRow) :
    stoStep tm sit com b s = b + stoContrib tm sit com s := by
  simp only [stoStep, stoContrib]
  split_ifs <;>
    (rw [LinExpr.ext_iff]; refine ⟨funext fun v => ?_, ?_⟩ <;> simp <;> ring)

/-- A left fold that adds a per-element contribution equals the start value
plus the sum of the contributions. -/
theorem foldl_contrib {α : Type} (g : α → LinExpr) (step : LinExpr → α → LinExpr)
    (hstep : ∀ b a, step b a = b + g a) :
    ∀ (l : List α) (e : LinExpr), l.foldl step e = e + sumE (l.map g) := by
  intro l
  induction l with
  | nil => intro e; exact (LinExpr.add_zero e).symm
  | cons a l ih =>
      intro e
      have h1 : sumE ((a :: l).map g) = g a + sumE (l.map g) := rfl
      simp only [List.foldl_cons, hstep, ih, h1]
      rw [LinExpr.add_assoc]

theorem sumE_map_sub {α : Type} (x y : α → LinExpr) (l : List α) :
    sumE (l.map fun a => x a - y a) = sumE (l.map x) - sumE (l.map y) := by
  rw [LinExpr.ext_iff]
  refine ⟨funext fun v => ?_, ?_⟩ <;>
    induction l with
    | nil => simp
    | cons a l ih => simp at ih ⊢; rw [ih]; ring

theorem sumE_map_ite {α : Type} (P : α → Prop) [DecidablePred P]
    (f : α → LinExpr) (l : List α) :
    sumE (l.map fun a => if P a then f a else 0) =
      sumE ((l.filter fun a => P a).map f) := by
  induction l with
  | nil => rfl
  | cons a l ih =>
      by_cases h : P a
      · have h1 : sumE ((a :: l).map fun a => if P a then f a else 0) =
            (if P a then f a else 0) + sumE (l.map fun a => if P a then f a else 0) := rfl
        rw [h1, if_pos h, ih]
        have h2 : (a :: l).filter (fun a => P a) = a :: l.filter (fun a => P a) := by
          simp [List.filter_cons, h]
        rw [h2]; rfl
      · have h1 : sumE ((a :: l).map fun a => if P a then f a else 0) =
            (if P a then f a else 0) + sumE (l.map fun a => if P a then f a else 0) := rfl
        rw [h1, if_neg h, ih]
        have h2 : (a :: l).filter (fun a => P a) = l.filter (fun a => P a) := by
          simp [List.filter_cons, h]
        rw [h2, LinExpr.zero_add]

/-- The commodity balance computed by the source's fold equals the
specification's signed sum of filtered flow variables. -/
theorem balance_eq (d : Data) (tm : ℤ) (sit com : String) :
    commodity_balance d tm sit com = balance_spec d tm sit com := by
  have hp := foldl_contrib (proContrib tm sit com) (proStep tm sit com)
    (proStep_eq tm sit com) d.process (0 : LinExpr)
  have ht := foldl_contrib (traContrib tm sit com) (traStep tm sit com)
    (traStep_eq tm sit com) d.transmission
  have hs := foldl_contrib (stoContrib tm sit com) (stoStep tm sit com)
    (stoStep_eq tm sit com) d.storage
  have hP : sumE (d.process.map (proContrib tm sit com)) =
      sumE ((d.process.filter (fun p => p.sit = sit ∧ p.coin = com)).map
        (fun p => ofVar (.e_pro_in tm p.sit p.pro p.coin p.cout)))
      - sumE ((d.process.filter (fun p => p.sit = sit ∧ p.cout = com)).map
        (fun p => ofVar (.e_pro_out tm p.sit p.pro p.coin p.cout))) := by
    rw [show (proContrib tm sit com) = fun p =>
        (if p.sit = sit ∧ p.coin = com then
          ofVar (.e_pro_in tm p.sit p.pro p.coin p.cout) else 0)
        - (if p.sit = sit ∧ p.cout = com then
          ofVar (.e_pro_out tm p.sit p.pro p.coin p.cout) else 0) from rfl,
      sumE_map_sub, sumE_map_ite, sumE_map_ite]
  have hT : sumE (d.transmission.map (traContrib tm sit com)) =
      sumE ((d.transmission.filter (fun t => t.sitin = sit ∧ t.com = com)).map
        (fun t => ofVar (.e_tra_in tm t.sitin t.sitout t.tra t.com)))
      - sumE ((d.transmission.filter (fun t => t.sitout = sit ∧ t.com = com)).map
        (fun t => ofVar (.e_tra_out tm t.sitin t.sitout t.tra t.com))) := by
    rw [show (traContrib tm sit com) = fun t =>
        (if t.sitin = sit ∧ t.com = com then
          ofVar (.e_tra_in tm t.sitin t.sitout t.tra t.com) else 0)
        - (if t.sitout = sit ∧ t.com = com then
          ofVar (.e_tra_out tm t.sitin t.sitout t.tra t.com) else 0) from rfl,
      sumE_map_sub, sumE_map_ite, sumE_map_ite]
  have hS : sumE (d.storage.map (stoContrib tm sit com)) =
      sumE ((d.storage.filter (fun s => s.sit = sit ∧ s.com = com)).map
        (fun s => ofVar (.e_sto_in tm s.sit s.sto s.com)))
      - sumE ((d.storage.filter (fun s => s.sit = sit ∧ s.com = com)).map
        (fun s => ofVar (.e_sto_out tm s.sit s.sto s.com))) := by
    rw [show (stoContrib tm sit com) = fun s =>
        (if s.sit = sit ∧ s.com = com then
          ofVar (.e_sto_in tm s.sit s.sto s.com) else 0)
        - (if s.sit = sit ∧ s.com = com then
          ofVar (.e_sto_out tm s.sit s.sto s.com) else 0) from rfl,
      sumE_map_sub, sumE_map_ite, sumE_map_ite]
  show d.storage.foldl (stoStep tm sit com)
      (d.transmission.foldl (traStep tm sit com)
        (d.process.foldl (proStep tm sit com) 0)) = balance_spec d tm sit com
  rw [hp, ht, hs, hP, hT, hS, balance_spec]
  rw [LinExpr.ext_iff]
  refine ⟨funext fun v => ?_, ?_⟩ <;> simp <;> ring

/-- Every transmission-symmetry constraint is part of the generated
constraint system. -/
theorem sym_subset_plain (d : Data) (ts : List ℤ) (dt : ℚ) :
    ∀ x ∈ res_transmission_symmetry_cons d, x ∈ plainCons d ts dt := by
  intro x hx
  simp only [plainCons, List.mem_append]
  tauto

/-- C1: for every timestep, site and commodity, the commodity balance equals
the signed sum: plus input flows of processes at the site consuming the
commodity, minus output flows of processes producing it, plus input flows of
transmission links originating at the site with that commodity, minus output
flows of links ending there, plus storage input flows minus storage output
flows for matching storage units. -/
theorem C1_commodity_balance_signed_sum (d : Data) (tm : ℤ) (sit com : String) :
    commodity_balance d tm sit com = balance_spec d tm sit com :=
  balance_eq d tm sit com

/-- C9: for every transmission tuple in the input table, a symmetry
constraint equating its total capacity variable with that of the mirrored
tuple is generated. -/
theorem C9_transmission_symmetry (d : Data) (ts : List ℤ) (dt : ℚ) (t : TraRow)
    (h : t ∈ d.transmission) :
    Con.eqC (ofVar (.cap_tra t.sitin t.sitout t.tra t.com))
        (ofVar (.cap_tra t.sitout t.sitin t.tra t.com))
      ∈ res_transmission_symmetry_cons d ∧
    Con.eqC (ofVar (.cap_tra t.sitin t.sitout t.tra t.com))
        (ofVar (.cap_tra t.sitout t.sitin t.tra t.com))
      ∈ plainCons d ts dt := by
  have hm : Con.eqC (ofVar (.cap_tra t.sitin t.sitout t.tra t.com))
      (ofVar (.cap_tra t.sitout t.sitin t.tra t.com))
      ∈ res_transmission_symmetry_cons d :=
    List.mem_map.mpr ⟨t, h, rfl⟩
  exact ⟨hm, sym_subset_plain d ts dt _ hm⟩

/-- C9 witness: the symmetry constraint of the sample transmission row is
generated. -/
theorem C9_transmission_symmetry_witness :
    Con.eqC (ofVar (.cap_tra "A" "B" "hvac" "Elec"))
        (ofVar (.cap_tra "B" "A" "hvac" "Elec"))
      ∈ res_transmission_symmetry_cons exData ∧
    Con.eqC (ofVar (.cap_tra "A" "B" "hvac" "Elec"))
        (ofVar (.cap_tra "B" "A" "hvac" "Elec"))
      ∈ plainCons exData [0, 1] 1 :=
  C9_transmission_symmetry exData [0, 1] 1 exTra (by simp [exData])

/-- C5: the annualisation weight equals `8760 / (timestep_count * dt)`, is
365 for a 24-step horizon with `dt = 1`, and for every stock commodity tuple
the annual cap constraint is `weight * Σ_tm (purchase * dt) <= max`. -/
theorem C5_annual_stock_cap (d : Data) (ts : List ℤ) (dt : ℚ) (c : ComRow)
    (hstock : com_stock d c.com = true) (hc : c ∈ d.commodity) :
    weight ts dt = 8760 / (ts.length * dt) ∧
    (ts.length = 24 → dt = 1 → weight ts dt = 365) ∧
    res_stock_total_rule d ts dt c = some (.leC
      ((sumE ((tmSteps ts).map (fun tm =>
        (ofVar (.e_co_stock tm c.sit c.com c.typ)).scale dt))).scale (weight ts dt))
      (ofConst c.max)) ∧
    ∀ con, res_stock_total_rule d ts dt c = some con →
      con ∈ res_stock_total_cons d ts dt := by
  refine ⟨rfl, ?_, ?_, ?_⟩
  · intro h24 h1
    rw [weight, h24, h1]
    norm_num
  · have hf := foldl_contrib
      (fun tm => (ofVar (.e_co_stock tm c.sit c.com c.typ)).scale dt)
      (fun b tm => b + (ofVar (.e_co_stock tm c.sit c.com c.typ)).scale dt)
      (fun _ _ => rfl) (tmSteps ts) 0
    simp only [res_stock_total_rule, hstock, if_true]
    rw [hf, LinExpr.zero_add]
  · intro con hcon
    exact List.mem_filterMap.mpr ⟨c, hc, hcon⟩

/-- C5 witness: the weight of a 24-step horizon at `dt = 1` is 365 and the
annual cap constraint of the sample stock commodity has the stated shape. -/
theorem C5_annual_stock_cap_witness :
    weight ((List.range 24).map (fun n => (n : ℤ))) 1 = 365 ∧
    res_stock_total_rule exData ((List.range 24).map (fun n => (n : ℤ))) 1
        exComStock = some (.leC
      ((sumE ((tmSteps ((List.range 24).map (fun n => (n : ℤ)))).map (fun tm =>
        (ofVar (.e_co_stock tm exComStock.sit exComStock.com exComStock.typ)).scale
          1))).scale (weight ((List.range 24).map (fun n => (n : ℤ))) 1))
      (ofConst exComStock.max)) := by
  have h := C5_annual_stock_cap exData ((List.range 24).map (fun n => (n : ℤ))) 1
    exComStock (by decide) (by simp [exData])
  exact ⟨h.2.1 (by decide) rfl, h.2.2.1⟩

/-- C6: for every valid input (positive depreciation period, rate above -1,
nondegenerate effective rate) the annuity factor satisfies its defining
equation `af * ((1+i)^n - 1) = (1+i)^n * i`, and `annuity_factor(20, 0.07)`
is 0.09439 to within 1/100000. -/
theorem C6_annuity_factor_formula :
    (∀ (n : ℤ) (i : ℚ), 0 < n → -1 < i → (1 + i) ^ n ≠ 1 →
      annuity_factor_checked n i = .ok (annuity_factor n i) ∧
      annuity_factor n i * ((1 + i) ^ n - 1) = (1 + i) ^ n * i) ∧
    |annuity_factor 20 (7/100) - 9439/100000| < 1/100000 := by
  constructor
  · intro n i hn hi h1
    have hden : (1 + i) ^ n - 1 ≠ 0 := sub_ne_zero.mpr h1
    constructor
    · simp [annuity_factor_checked, hden]
    · rw [annuity_factor, div_mul_cancel₀ _ hden]
  · rw [abs_lt]
    constructor <;> norm_num [annuity_factor]

/-- C6 witness: the defining equation holds at the documented example
`(n, i) = (20, 0.07)`. -/
theorem C6_annuity_factor_witness :
    annuity_factor_checked 20 (7/100) = .ok (annuity_factor 20 (7/100)) ∧
    annuity_factor 20 (7/100) * ((1 + 7/100 : ℚ) ^ (20 : ℤ) - 1) =
      (1 + 7/100 : ℚ) ^ (20 : ℤ) * (7/100) := by
  have hgt : (1 : ℚ) < 1 + 7/100 := by norm_num
  have hne : (1 + 7/100 : ℚ) ^ (20 : ℤ) ≠ 1 :=
    ne_of_gt (one_lt_zpow₀ hgt (by norm_num))
  exact C6_annuity_factor_formula.1 20 (7/100) (by norm_num) (by norm_num) hne

/-- C7 counterexample: the claim says the annuity factor fails for every
`n <= 0` with `i > -1`, but at `n = -1, i = 1` the source evaluates the
formula without error and returns -1. -/
theorem C7_counterexample_negative_n :
    (-1 : ℤ) ≤ 0 ∧ (-1 : ℚ) < 1 ∧
    annuity_factor_checked (-1) 1 = .ok (-1) := by
  refine ⟨by norm_num, by norm_num, ?_⟩
  norm_num [annuity_factor_checked, annuity_factor]

/-- C7 (amended): for rates above -1, the annuity factor computation raises
`ZeroDivisionError` exactly when the zero-rate or zero-period degeneracy
`(1+i)^n = 1` holds, i.e. exactly when `i = 0` or `n = 0`; for `n < 0` with
nonzero rate it succeeds. -/
theorem C7_annuity_domain_error (n : ℤ) (i : ℚ) (hi : -1 < i) :
    annuity_factor_checked n i = .error "ZeroDivisionError" ↔ (i = 0 ∨ n = 0) := by
  have hpos : (0 : ℚ) < 1 + i := by linarith
  constructor
  · intro h
    by_contra hc
    push_neg at hc
    obtain ⟨hi0, hn0⟩ := hc
    have h1 : (1 + i) ≠ 1 := fun he => hi0 (by linarith)
    have hne : (1 + i) ^ n ≠ 1 :=
      fun hcontr => hn0 ((zpow_eq_one_iff_right₀ hpos.le h1).mp hcontr)
    have hden : (1 + i) ^ n - 1 ≠ 0 := sub_ne_zero.mpr hne
    simp [annuity_factor_checked, hden] at h
  · rintro (rfl | rfl)
    · simp [annuity_factor_checked]
    · simp [annuity_factor_checked]

/-- C7 witness: at `n = 5, i = 0` the computation raises the domain error. -/
theorem C7_annuity_domain_error_witness :
    annuity_factor_checked 5 0 = .error "ZeroDivisionError" :=
  (C7_annuity_domain_error 5 0 (by norm_num)).mpr (Or.inl rfl)

/-- With one always-failing element in the list, the traversal of the cost
generator cannot succeed. -/
theorem exceptMap_error {α β : Type} (f : α → Except String β) (a : α)
    (ha : ∀ b, f a ≠ .ok b) :
    ∀ (l : List α), a ∈ l → ∀ bs, exceptMap f l ≠ .ok bs := by
  intro l
  induction l with
  | nil => intro h; cases h
  | cons x xs ih =>
      intro hmem bs hok
      simp only [exceptMap] at hok
      cases hfx : f x with
      | error e =>
          rw [hfx] at hok
          exact Except.noConfusion
            (show (Except.error e : Except String (List β)) = Except.ok bs from hok)
      | ok b =>
          rw [hfx] at hok
          cases hrest : exceptMap f xs with
          | error e =>
              rw [hrest] at hok
              exact Except.noConfusion
                (show (Except.error e : Except String (List β)) = Except.ok bs from hok)
          | ok others =>
              rcases List.mem_cons.mp hmem with rfl | hxs
              · exact ha b hfx
              · exact ih hxs others hrest

/-- C8: the cost generator handles exactly the four cost types `Inv`, `Fix`,
`Var`, `Fuel` (spec names Investment, Fixed, Variable, Fuel); every other
cost type raises the unknown-cost-type error, and a build whose cost-type
list contains an unknown entry such as `Depreciation` returns no model
container at all. -/
theorem C8_cost_types (d : Data) (ts : List ℤ) (dt : ℚ) :
    (∀ ct ∈ cost_type, ∃ con, def_costs_rule d ts dt ct = .ok con) ∧
    (∀ ct, ct ∉ cost_type →
      def_costs_rule d ts dt ct = .error "NotImplementedError: Unknown cost type.") ∧
    (∀ cts, "Depreciation" ∈ cts →
      ∀ mc, buildModelWith d ts dt cts ≠ .ok mc) := by
  refine ⟨?_, ?_, ?_⟩
  · intro ct h
    simp only [cost_type, List.mem_cons, List.not_mem_nil, or_false] at h
    rcases h with rfl | rfl | rfl | rfl <;> exact ⟨_, rfl⟩
  · intro ct h
    simp only [cost_type, List.mem_cons, List.not_mem_nil, or_false, not_or] at h
    obtain ⟨h1, h2, h3, h4⟩ := h
    simp [def_costs_rule, h1, h2, h3, h4]
  · intro cts hmem mc hok
    have hdep : ∀ b, def_costs_rule d ts dt "Depreciation" ≠ .ok b := by
      intro b hb
      simp [def_costs_rule] at hb
    simp only [buildModelWith] at hok
    cases hco2 : res_co2_emission_con d ts dt with
    | error e =>
        rw [hco2] at hok
        exact Except.noConfusion
          (show (Except.error e : Except String ModelContainer) = Except.ok mc from hok)
    | ok co2con =>
        rw [hco2] at hok
        cases hcc : exceptMap (def_costs_rule d ts dt) cts with
        | error e =>
            rw [hcc] at hok
            exact Except.noConfusion
              (show (Except.error e : Except String ModelContainer) = Except.ok mc from hok)
        | ok costCons =>
            exact exceptMap_error _ _ hdep cts hmem costCons hcc

/-- A list of zeros sums to zero. -/
theorem sum_map_zero {α : Type} (l : List α) : (l.map (fun _ => (0 : ℚ))).sum = 0 := by
  induction l <;> simp_all

/-- A sum of expressions none of which carries variable `v` has coefficient
zero at `v`. -/
theorem coeff_sumE_zero (l : List LinExpr) (v : MVar)
    (h : ∀ e ∈ l, e.coeff v = 0) : (sumE l).coeff v = 0 := by
  rw [coeff_sumE]
  apply List.sum_eq_zero
  intro q hq
  obtain ⟨e, he, rfl⟩ := List.mem_map.mp hq
  exact h e he

/-- The commodity balance never references a stock-purchase variable. -/
theorem coeff_stock_balance (d : Data) (tm' : ℤ) (sit' com' : String)
    (tm : ℤ) (sit com typ : String) :
    (commodity_balance d tm' sit' com').coeff (.e_co_stock tm sit com typ) = 0 := by
  rw [balance_eq, balance_spec]
  simp [coeff_ofVar, Function.comp_def, sum_map_zero]

/-! No constraint family other than the stock rules and the fuel cost sum
references any stock-purchase variable at all. -/

theorem noS_res_demand (d : Data) (ts : List ℤ) (tm : ℤ) (sit com typ : String) :
    ∀ con ∈ res_demand_cons d ts,
      ¬ conMentions con (.e_co_stock tm sit com typ) := by
  intro con hcon hm
  obtain ⟨tm', _, hcon⟩ := List.mem_flatMap.mp hcon
  obtain ⟨c', _, hrule⟩ := List.mem_filterMap.mp hcon
  rw [res_demand_rule] at hrule
  by_cases hdem : com_demand d c'.com = true
  · rw [if_pos hdem] at hrule
    injection hrule with h
    subst h
    simp [conMentions, coeff_stock_balance] at hm
  · rw [if_neg hdem] at hrule
    cases hrule

theorem noS_def_process_capacity (d : Data) (tm : ℤ) (sit com typ : String) :
    ∀ con ∈ def_process_capacity_cons d,
      ¬ conMentions con (.e_co_stock tm sit com typ) := by
  intro con hcon hm
  obtain ⟨p, _, rfl⟩ := List.mem_map.mp hcon
  simp [def_process_capacity_rule, conMentions, coeff_ofVar] at hm

theorem noS_def_process_output (d : Data) (ts : List ℤ) (tm : ℤ)
    (sit com typ : String) :
    ∀ con ∈ def_process_output_cons d ts,
      ¬ conMentions con (.e_co_stock tm sit com typ) := by
  intro con hcon hm
  obtain ⟨tm', _, hcon⟩ := List.mem_flatMap.mp hcon
  obtain ⟨p, _, rfl⟩ := List.mem_map.mp hcon
  simp [def_process_output_rule, conMentions, coeff_ofVar] at hm

theorem noS_def_intermittent_supply (d : Data) (ts : List ℤ) (tm : ℤ)
    (sit com typ : String) :
    ∀ con ∈ def_intermittent_supply_cons d ts,
      ¬ conMentions con (.e_co_stock tm sit com typ) := by
  intro con hcon hm
  obtain ⟨tm', _, hcon⟩ := List.mem_flatMap.mp hcon
  obtain ⟨p, _, hrule⟩ := List.mem_filterMap.mp hcon
  rw [def_intermittent_supply_rule] at hrule
  by_cases hsup : com_supim d p.coin = true
  · rw [if_pos hsup] at hrule
    injection hrule with h
    subst h
    simp [conMentions, coeff_ofVar] at hm
  · rw [if_neg hsup] at hrule
    cases hrule

theorem noS_def_co2_emissions (d : Data) (ts : List ℤ) (dt : ℚ) (tm : ℤ)
    (sit com typ : String) :
    ∀ con ∈ def_co2_emissions_cons d ts dt,
      ¬ conMentions con (.e_co_stock tm sit com typ) := by
  intro con hcon hm
  obtain ⟨tm', _, hcon⟩ := List.mem_flatMap.mp hcon
  obtain ⟨p, _, rfl⟩ := List.mem_map.mp hcon
  simp [def_co2_emissions_rule, conMentions, coeff_ofVar] at hm

theorem noS_res_process_output_by_capacity (d : Data) (ts : List ℤ) (tm : ℤ)
    (sit com typ : String) :
    ∀ con ∈ res_process_output_by_capacity_cons d ts,
      ¬ conMentions con (.e_co_stock tm sit com typ) := by
  intro con hcon hm
  obtain ⟨tm', _, hcon⟩ := List.mem_flatMap.mp hcon
  obtain ⟨p, _, rfl⟩ := List.mem_map.mp hcon
  simp [res_process_output_by_capacity_rule, conMentions, coeff_ofVar] at hm

theorem noS_res_process_capacity (d : Data) (tm : ℤ) (sit com typ : String) :
    ∀ con ∈ res_process_capacity_cons d,
      ¬ conMentions con (.e_co_stock tm sit com typ) := by
  intro con hcon hm
  obtain ⟨p, _, rfl⟩ := List.mem_map.mp hcon
  simp [res_process_capacity_rule, conMentions, coeff_ofVar] at hm

theorem noS_def_transmission_capacity (d : Data) (tm : ℤ) (sit com typ : String) :
    ∀ con ∈ def_transmission_capacity_cons d,
      ¬ conMentions con (.e_co_stock tm sit com typ) := by
  intro con hcon hm
  obtain ⟨t, _, rfl⟩ := List.mem_map.mp hcon
  simp [def_transmission_capacity_rule, conMentions, coeff_ofVar] at hm

theorem noS_def_transmission_output (d : Data) (ts : List ℤ) (tm : ℤ)
    (sit com typ : String) :
    ∀ con ∈ def_transmission_output_cons d ts,
      ¬ conMentions con (.e_co_stock tm sit com typ) := by
  intro con hcon hm
  obtain ⟨tm', _, hcon⟩ := List.mem_flatMap.mp hcon
  obtain ⟨t, _, rfl⟩ := List.mem_map.mp hcon
  simp [def_transmission_output_rule, conMentions, coeff_ofVar] at hm

theorem noS_res_transmission_input_by_capacity (d : Data) (ts : List ℤ) (tm : ℤ)
    (sit com typ : String) :
    ∀ con ∈ res_transmission_input_by_capacity_cons d ts,
      ¬ conMentions con (.e_co_stock tm sit com typ) := by
  intro con hcon hm
  obtain ⟨tm', _, hcon⟩ := List.mem_flatMap.mp hcon
  obtain ⟨t, _, rfl⟩ := List.mem_map.mp hcon
  simp [res_transmission_input_by_capacity_rule, conMentions, coeff_ofVar] at hm

theorem noS_res_transmission_capacity (d : Data) (tm : ℤ) (sit com typ : String) :
    ∀ con ∈ res_transmission_capacity_cons d,
      ¬ conMentions con (.e_co_stock tm sit com typ) := by
  intro con hcon hm
  obtain ⟨t, _, rfl⟩ := List.mem_map.mp hcon
  simp [res_transmission_capacity_rule, conMentions, coeff_ofVar] at hm

theorem noS_res_transmission_symmetry (d : Data) (tm : ℤ) (sit com typ : String) :
    ∀ con ∈ res_transmission_symmetry_cons d,
      ¬ conMentions con (.e_co_stock tm sit com typ) := by
  intro con hcon hm
  obtain ⟨t, _, rfl⟩ := List.mem_map.mp hcon
  simp [res_transmission_symmetry_rule, conMentions, coeff_ofVar] at hm

theorem noS_def_storage_state (d : Data) (ts : List ℤ) (dt : ℚ) (tm : ℤ)
    (sit com typ : String) :
    ∀ con ∈ def_storage_state_cons d ts dt,
      ¬ conMentions con (.e_co_stock tm sit com typ) := by
  intro con hcon hm
  obtain ⟨tm', _, hcon⟩ := List.mem_flatMap.mp hcon
  obtain ⟨s, _, rfl⟩ := List.mem_map.mp hcon
  simp [def_storage_state_rule, conMentions, coeff_ofVar] at hm

theorem noS_def_storage_power (d : Data) (tm : ℤ) (sit com typ : String) :
    ∀ con ∈ def_storage_power_cons d,
      ¬ conMentions con (.e_co_stock tm sit com typ) := by
  intro con hcon hm
  obtain ⟨s, _, rfl⟩ := List.mem_map.mp hcon
  simp [def_storage_power_rule, conMentions, coeff_ofVar] at hm

theorem noS_def_storage_capacity (d : Data) (tm : ℤ) (sit com typ : String) :
    ∀ con ∈ def_storage_capacity_cons d,
      ¬ conMentions con (.e_co_stock tm sit com typ) := by
  intro con hcon hm
  obtain ⟨s, _, rfl⟩ := List.mem_map.mp hcon
  simp [def_storage_capacity_rule, conMentions, coeff_ofVar] at hm

theorem noS_res_storage_input_by_power (d : Data) (ts : List ℤ) (tm : ℤ)
    (sit com typ : String) :
    ∀ con ∈ res_storage_input_by_power_cons d ts,
      ¬ conMentions con (.e_co_stock tm sit com typ) := by
  intro con hcon hm
  obtain ⟨tm', _, hcon⟩ := List.mem_flatMap.mp hcon
  obtain ⟨s, _, rfl⟩ := List.mem_map.mp hcon
  simp [res_storage_input_by_power_rule, conMentions, coeff_ofVar] at hm

theorem noS_res_storage_output_by_power (d : Data) (ts : List ℤ) (tm : ℤ)
    (sit com typ : String) :
    ∀ con ∈ res_storage_output_by_power_cons d ts,
      ¬ conMentions con (.e_co_stock tm sit com typ) := by
  intro con hcon hm
  obtain ⟨tm', _, hcon⟩ := List.mem_flatMap.mp hcon
  obtain ⟨s, _, rfl⟩ := List.mem_map.mp hcon
  simp [res_storage_output_by_power_rule, conMentions, coeff_ofVar] at hm

theorem noS_res_storage_state_by_capacity (d : Data) (ts : List ℤ) (tm : ℤ)
    (sit com typ : String) :
    ∀ con ∈ res_storage_state_by_capacity_cons d ts,
      ¬ conMentions con (.e_co_stock tm sit com typ) := by
  intro con hcon hm
  obtain ⟨t', _, hcon⟩ := List.mem_flatMap.mp hcon
  obtain ⟨s, _, rfl⟩ := List.mem_map.mp hcon
  simp [res_storage_state_by_capacity_rule, conMentions, coeff_ofVar] at hm

theorem noS_res_storage_power (d : Data) (tm : ℤ) (sit com typ : String) :
    ∀ con ∈ res_storage_power_cons d,
      ¬ conMentions con (.e_co_stock tm sit com typ) := by
  intro con hcon hm
  obtain ⟨s, _, rfl⟩ := List.mem_map.mp hcon
  simp [res_storage_power_rule, conMentions, coeff_ofVar] at hm

theorem noS_res_storage_capacity (d : Data) (tm : ℤ) (sit com typ : String) :
    ∀ con ∈ res_storage_capacity_cons d,
      ¬ conMentions con (.e_co_stock tm sit com typ) := by
  intro con hcon hm
  obtain ⟨s, _, rfl⟩ := List.mem_map.mp hcon
  simp [res_storage_capacity_rule, conMentions, coeff_ofVar] at hm

theorem noS_res_initial_and_final (d : Data) (ts : List ℤ) (tm : ℤ)
    (sit com typ : String) :
    ∀ con ∈ res_initial_and_final_storage_state_cons d ts,
      ¬ conMentions con (.e_co_stock tm sit com typ) := by
  intro con hcon hm
  obtain ⟨t', _, hcon⟩ := List.mem_flatMap.mp hcon
  obtain ⟨s, _, hrule⟩ := List.mem_filterMap.mp hcon
  rw [res_initial_and_final_storage_state_rule] at hrule
  split at hrule
  · injection hrule with h
    subst h
    simp [conMentions, coeff_ofVar] at hm
  · split at hrule
    · injection hrule with h
      subst h
      simp [conMentions, coeff_ofVar] at hm
    · cases hrule

/-- A sum over a flattened index family none of whose members carries `v`
has coefficient zero at `v`. -/
theorem coeff_sumE_flatMap_zero {α : Type} (l : List α) (g : α → List LinExpr)
    (v : MVar) (h : ∀ a ∈ l, ∀ e ∈ g a, e.coeff v = 0) :
    (sumE (l.flatMap g)).coeff v = 0 := by
  apply coeff_sumE_zero
  intro e he
  obtain ⟨a, ha, he⟩ := List.mem_flatMap.mp he
  exact h a ha e he

theorem noS_def_e_co_stock (d : Data) (ts : List ℤ) (tm : ℤ)
    (sit com typ : String) (hns : com_stock d com = false) :
    ∀ con ∈ def_e_co_stock_cons d ts,
      ¬ conMentions con (.e_co_stock tm sit com typ) := by
  intro con hcon hm
  obtain ⟨tm', _, hcon⟩ := List.mem_flatMap.mp hcon
  obtain ⟨c', _, hrule⟩ := List.mem_filterMap.mp hcon
  rw [def_e_co_stock_rule] at hrule
  by_cases hstock : com_stock d c'.com = true
  · rw [if_pos hstock] at hrule
    injection hrule with h
    subst h
    by_cases hv : (MVar.e_co_stock tm sit com typ) =
        (MVar.e_co_stock tm' c'.sit c'.com c'.typ)
    · injection hv with h1 h2 h3 h4
      rw [h3] at hns
      simp [hns] at hstock
    · simp [conMentions, coeff_ofVar, coeff_stock_balance, hv] at hm
  · rw [if_neg hstock] at hrule
    cases hrule

theorem noS_res_stock_step (d : Data) (ts : List ℤ) (tm : ℤ)
    (sit com typ : String) (hns : com_stock d com = false) :
    ∀ con ∈ res_stock_step_cons d ts,
      ¬ conMentions con (.e_co_stock tm sit com typ) := by
  intro con hcon hm
  obtain ⟨tm', _, hcon⟩ := List.mem_flatMap.mp hcon
  obtain ⟨c', _, hrule⟩ := List.mem_filterMap.mp hcon
  rw [res_stock_step_rule] at hrule
  by_cases hstock : com_stock d c'.com = true
  · rw [if_pos hstock] at hrule
    injection hrule with h
    subst h
    by_cases hv : (MVar.e_co_stock tm sit com typ) =
        (MVar.e_co_stock tm' c'.sit c'.com c'.typ)
    · injection hv with h1 h2 h3 h4
      rw [h3] at hns
      simp [hns] at hstock
    · simp [conMentions, coeff_ofVar, hv] at hm
  · rw [if_neg hstock] at hrule
    cases hrule

theorem noS_res_stock_total (d : Data) (ts : List ℤ) (dt : ℚ) (tm : ℤ)
    (sit com typ : String) (hns : com_stock d com = false) :
    ∀ con ∈ res_stock_total_cons d ts dt,
      ¬ conMentions con (.e_co_stock tm sit com typ) := by
  intro con hcon hm
  obtain ⟨c', _, hrule⟩ := List.mem_filterMap.mp hcon
  rw [res_stock_total_rule] at hrule
  by_cases hstock : com_stock d c'.com = true
  · rw [if_pos hstock] at hrule
    injection hrule with h
    subst h
    have hf := foldl_contrib
      (fun tm'' => (ofVar (.e_co_stock tm'' c'.sit c'.com c'.typ)).scale dt)
      (fun b tm'' => b + (ofVar (.e_co_stock tm'' c'.sit c'.com c'.typ)).scale dt)
      (fun _ _ => rfl) (tmSteps ts) 0
    simp only [conMentions, hf, LinExpr.zero_add, coeff_scale, coeff_ofConst,
      ne_eq, not_true_eq_false, or_false, not_not] at hm
    have hz : (sumE ((tmSteps ts).map
        (fun tm'' => (ofVar (MVar.e_co_stock tm'' c'.sit c'.com c'.typ)).scale
          dt))).coeff (MVar.e_co_stock tm sit com typ) = 0 := by
      apply coeff_sumE_zero
      intro e he
      obtain ⟨tm'', _, rfl⟩ := List.mem_map.mp he
      rw [coeff_scale]
      by_cases hv : (MVar.e_co_stock tm sit com typ) =
          (MVar.e_co_stock tm'' c'.sit c'.com c'.typ)
      · injection hv with h1 h2 h3 h4
        rw [h3] at hns
        simp [hns] at hstock
      · rw [coeff_ofVar, if_neg hv, zero_mul]
    rw [hz, zero_mul] at hm
    simp at hm
  · rw [if_neg hstock] at hrule
    cases hrule

/-- The investment cost sum carries no stock-purchase variable. -/
theorem coeffv_inv_costs (d : Data) (tm : ℤ) (sit com typ : String) :
    (inv_costs_sum d).coeff (.e_co_stock tm sit com typ) = 0 := by
  rw [inv_costs_sum]
  simp only [coeff_add]
  rw [coeff_sumE_zero _ _ (by
    intro e he
    obtain ⟨p, _, rfl⟩ := List.mem_map.mp he
    simp [coeff_ofVar])]
  rw [coeff_sumE_zero _ _ (by
    intro e he
    obtain ⟨t, _, rfl⟩ := List.mem_map.mp he
    simp [coeff_ofVar])]
  rw [coeff_sumE_zero _ _ (by
    intro e he
    obtain ⟨s, _, rfl⟩ := List.mem_map.mp he
    simp [coeff_ofVar])]
  ring

/-- The fixed cost sum carries no stock-purchase variable. -/
theorem coeffv_fix_costs (d : Data) (tm : ℤ) (sit com typ : String) :
    (fix_costs_sum d).coeff (.e_co_stock tm sit com typ) = 0 := by
  rw [fix_costs_sum]
  simp only [coeff_add]
  rw [coeff_sumE_zero _ _ (by
    intro e he
    obtain ⟨p, _, rfl⟩ := List.mem_map.mp he
    simp [coeff_ofVar])]
  rw [coeff_sumE_zero _ _ (by
    intro e he
    obtain ⟨t, _, rfl⟩ := List.mem_map.mp he
    simp [coeff_ofVar])]
  rw [coeff_sumE_zero _ _ (by
    intro e he
    obtain ⟨s, _, rfl⟩ := List.mem_map.mp he
    simp [coeff_ofVar])]
  ring

/-- The variable cost sum carries no stock-purchase variable. -/
theorem coeffv_var_costs (d : Data) (ts : List ℤ) (dt : ℚ) (tm : ℤ)
    (sit com typ : String) :
    (var_costs_sum d ts dt).coeff (.e_co_stock tm sit com typ) = 0 := by
  rw [var_costs_sum]
  simp only [coeff_add]
  rw [coeff_sumE_flatMap_zero _ _ _ (by
    intro a _ e he
    obtain ⟨p, _, rfl⟩ := List.mem_map.mp he
    simp [coeff_ofVar])]
  rw [coeff_sumE_flatMap_zero _ _ _ (by
    intro a _ e he
    obtain ⟨t, _, rfl⟩ := List.mem_map.mp he
    simp [coeff_ofVar])]
  rw [coeff_sumE_flatMap_zero _ _ _ (by
    intro a _ e he
    obtain ⟨s, _, rfl⟩ := List.mem_map.mp he
    simp [coeff_ofVar])]
  ring

/-- The fuel cost sum references only stock-purchase variables of stock
commodities. -/
theorem coeffv_fuel_costs (d : Data) (ts : List ℤ) (dt : ℚ) (tm : ℤ)
    (sit com typ : String) (hns : com_stock d com = false) :
    (fuel_costs_sum d ts dt).coeff (.e_co_stock tm sit com typ) = 0 := by
  rw [fuel_costs_sum]
  apply coeff_sumE_flatMap_zero
  intro tm' _ e he
  obtain ⟨c', hc', rfl⟩ := List.mem_map.mp he
  have hstock : com_stock d c'.com = true := (List.mem_filter.mp hc').2
  simp only [coeff_scale]
  by_cases hv : (MVar.e_co_stock tm sit com typ) =
      (MVar.e_co_stock tm' c'.sit c'.com c'.typ)
  · injection hv with h1 h2 h3 h4
    rw [h3] at hns
    simp [hns] at hstock
  · rw [coeff_ofVar, if_neg hv]
    ring

/-- The CO2 cap constraint carries no stock-purchase variable. -/
theorem noS_co2_con (d : Data) (ts : List ℤ) (dt : ℚ) (con : Con)
    (hcon : res_co2_emission_con d ts dt = .ok con) (tm : ℤ)
    (sit com typ : String) :
    ¬ conMentions con (.e_co_stock tm sit com typ) := by
  intro hm
  rw [res_co2_emission_con] at hcon
  cases hfind : d.commodity.find?
      (fun c => c.sit = "Global" ∧ c.com = "CO2" ∧ c.typ = "Env") with
  | none => rw [hfind] at hcon; cases hcon
  | some c =>
      rw [hfind] at hcon
      injection hcon with h
      subst h
      simp only [conMentions, coeff_scale, coeff_ofConst, ne_eq,
        not_true_eq_false, or_false] at hm
      rw [coeff_sumE_flatMap_zero _ _ _ (by
        intro a _ e he
        obtain ⟨p, _, rfl⟩ := List.mem_map.mp he
        simp [coeff_ofVar]), zero_mul] at hm
      simp at hm

/-- The objective carries no stock-purchase variable. -/
theorem coeffv_obj (tm : ℤ) (sit com typ : String) :
    obj_expr.coeff (.e_co_stock tm sit com typ) = 0 := by
  rw [obj_expr]
  apply coeff_sumE_zero
  intro e he
  obtain ⟨ct, _, rfl⟩ := List.mem_map.mp he
  simp [coeff_ofVar]

/-- A successful build yields exactly the declared variables, the generated
constraint families followed by the CO2 cap and the four cost constraints,
and the cost-sum objective. -/
theorem buildModel_ok_parts (d : Data) (ts : List ℤ) (dt : ℚ)
    (mc : ModelContainer) (hmc : buildModel d ts dt = .ok mc) :
    mc.vars = allocVars d ts ∧ mc.obj = obj_expr ∧
    ∃ co2con, res_co2_emission_con d ts dt = .ok co2con ∧
      mc.cons = plainCons d ts dt ++ [co2con] ++
        [Con.eqC (ofVar (.costs "Inv")) (inv_costs_sum d),
         Con.eqC (ofVar (.costs "Fix")) (fix_costs_sum d),
         Con.eqC (ofVar (.costs "Var")) (var_costs_sum d ts dt),
         Con.eqC (ofVar (.costs "Fuel")) (fuel_costs_sum d ts dt)] := by
  rw [buildModel, buildModelWith] at hmc
  cases hco2 : res_co2_emission_con d ts dt with
  | error e =>
      rw [hco2] at hmc
      exact Except.noConfusion
        (show (Except.error e : Except String ModelContainer) = .ok mc from hmc)
  | ok co2con =>
      rw [hco2] at hmc
      have hcost : exceptMap (def_costs_rule d ts dt) cost_type = .ok
          [Con.eqC (ofVar (.costs "Inv")) (inv_costs_sum d),
           Con.eqC (ofVar (.costs "Fix")) (fix_costs_sum d),
           Con.eqC (ofVar (.costs "Var")) (var_costs_sum d ts dt),
           Con.eqC (ofVar (.costs "Fuel")) (fuel_costs_sum d ts dt)] := rfl
      rw [hcost] at hmc
      have h2 : ({ vars := allocVars d ts
                   cons := plainCons d ts dt ++ [co2con] ++
                     [Con.eqC (ofVar (.costs "Inv")) (inv_costs_sum d),
                      Con.eqC (ofVar (.costs "Fix")) (fix_costs_sum d),
                      Con.eqC (ofVar (.costs "Var")) (var_costs_sum d ts dt),
                      Con.eqC (ofVar (.costs "Fuel")) (fuel_costs_sum d ts dt)]
                   obj := obj_expr } : ModelContainer) = mc := by
        exact Except.ok.inj hmc
      rw [← h2]
      exact ⟨rfl, rfl, co2con, rfl, rfl⟩

/-- C10: the stock-purchase variable is allocated for every modelled
timestep and commodity tuple regardless of type, and for every tuple whose
commodity name is not of stock type the variable occurs, with nonzero
coefficient, in no generated constraint (stock rules and fuel costs
included) and not in the objective, leaving it bounded only by its
non-negative domain. -/
theorem C10_nonstock_stock_vars (d : Data) (ts : List ℤ) (dt : ℚ)
    (mc : ModelContainer) (hmc : buildModel d ts dt = .ok mc)
    (tm : ℤ) (c : ComRow) (htm : tm ∈ tmSteps ts) (hc : c ∈ d.commodity) :
    MVar.e_co_stock tm c.sit c.com c.typ ∈ mc.vars ∧
    (com_stock d c.com = false →
      (∀ con ∈ mc.cons,
        ¬ conMentions con (.e_co_stock tm c.sit c.com c.typ)) ∧
      mc.obj.coeff (.e_co_stock tm c.sit c.com c.typ) = 0) := by
  obtain ⟨hvars, hobj, co2con, hco2, hcons⟩ := buildModel_ok_parts d ts dt mc hmc
  constructor
  · rw [hvars]
    have hx : MVar.e_co_stock tm c.sit c.com c.typ ∈
        (tmSteps ts).flatMap (fun tm' =>
          d.commodity.map (fun c' => MVar.e_co_stock tm' c'.sit c'.com c'.typ)) :=
      List.mem_flatMap.mpr ⟨tm, htm, List.mem_map.mpr ⟨c, hc, rfl⟩⟩
    simp only [allocVars, List.mem_append]
    tauto
  · intro hns
    constructor
    · intro con hcon
      rw [hcons] at hcon
      rcases List.mem_append.mp hcon with hcon | hcon
      · rcases List.mem_append.mp hcon with hcon | hcon
        · simp only [plainCons, List.mem_append, or_assoc] at hcon
          rcases hcon with h|h|h|h|h|h|h|h|h|h|h|h|h|h|h|h|h|h|h|h|h|h|h|h
          · exact noS_res_demand d ts tm c.sit c.com c.typ con h
          · exact noS_def_e_co_stock d ts tm c.sit c.com c.typ hns con h
          · exact noS_res_stock_step d ts tm c.sit c.com c.typ hns con h
          · exact noS_res_stock_total d ts dt tm c.sit c.com c.typ hns con h
          · exact noS_def_process_capacity d tm c.sit c.com c.typ con h
          · exact noS_def_process_output d ts tm c.sit c.com c.typ con h
          · exact noS_def_intermittent_supply d ts tm c.sit c.com c.typ con h
          · exact noS_def_co2_emissions d ts dt tm c.sit c.com c.typ con h
          · exact noS_res_process_output_by_capacity d ts tm c.sit c.com c.typ con h
          · exact noS_res_process_capacity d tm c.sit c.com c.typ con h
          · exact noS_def_transmission_capacity d tm c.sit c.com c.typ con h
          · exact noS_def_transmission_output d ts tm c.sit c.com c.typ con h
          · exact noS_res_transmission_input_by_capacity d ts tm c.sit c.com c.typ con h
          · exact noS_res_transmission_capacity d tm c.sit c.com c.typ con h
          · exact noS_res_transmission_symmetry d tm c.sit c.com c.typ con h
          · exact noS_def_storage_state d ts dt tm c.sit c.com c.typ con h
          · exact noS_def_storage_power d tm c.sit c.com c.typ con h
          · exact noS_def_storage_capacity d tm c.sit c.com c.typ con h
          · exact noS_res_storage_input_by_power d ts tm c.sit c.com c.typ con h
          · exact noS_res_storage_output_by_power d ts tm c.sit c.com c.typ con h
          · exact noS_res_storage_state_by_capacity d ts tm c.sit c.com c.typ con h
          · exact noS_res_storage_power d tm c.sit c.com c.typ con h
          · exact noS_res_storage_capacity d tm c.sit c.com c.typ con h
          · exact noS_res_initial_and_final d ts tm c.sit c.com c.typ con h
        · rw [List.mem_singleton] at hcon
          subst hcon
          exact noS_co2_con d ts dt con hco2 tm c.sit c.com c.typ
      · simp only [List.mem_cons, List.not_mem_nil, or_false] at hcon
        rcases hcon with rfl | rfl | rfl | rfl
        · intro hm
          simp [conMentions, coeff_ofVar, coeffv_inv_costs] at hm
        · intro hm
          simp [conMentions, coeff_ofVar, coeffv_fix_costs] at hm
        · intro hm
          simp [conMentions, coeff_ofVar, coeffv_var_costs] at hm
        · intro hm
          simp [conMentions, coeff_ofVar,
            coeffv_fuel_costs d ts dt tm c.sit c.com c.typ hns] at hm
    · rw [hobj]
      exact coeffv_obj tm c.sit c.com c.typ

/-- C10 witness: on the sample data the build succeeds, the stock-purchase
variable of the non-stock tuple `(A, Elec, Demand)` at timestep 1 is
allocated, and no constraint or objective coefficient mentions it. -/
theorem C10_nonstock_stock_vars_witness :
    buildModel exData [0, 1] 1 = .ok exModel ∧
    MVar.e_co_stock 1 exComDemand.sit exComDemand.com exComDemand.typ ∈
      exModel.vars ∧
    (∀ con ∈ exModel.cons, ¬ conMentions con
      (.e_co_stock 1 exComDemand.sit exComDemand.com exComDemand.typ)) ∧
    exModel.obj.coeff
      (.e_co_stock 1 exComDemand.sit exComDemand.com exComDemand.typ) = 0 := by
  have hmc : buildModel exData [0, 1] 1 = .ok exModel := rfl
  have h := C10_nonstock_stock_vars exData [0, 1] 1 exModel hmc 1 exComDemand
    (by decide) (by simp [exData])
  exact ⟨hmc, h.1, (h.2 (by decide)).1, (h.2 (by decide)).2⟩

/-- C2 counterexample: with the non-consecutive horizon `[10, 12]` the
storage state constraint generated at the modelled timestep 12 references
`content[11]` — the result of arithmetic subtraction on the timestep
identifier, which is not even a timestep of the horizon — and carries
coefficient 0 on `content[10]`, the immediately preceding element of the
ordered timestep sequence, where the claim demands coefficient 1. -/
theorem C2_counterexample_nonconsecutive :
    ∃ L R, def_storage_state_rule 1 12 exSto = Con.eqC L R ∧
      R.coeff (.e_sto_con 10 "A" "bat" "Elec") = 0 ∧
      R.coeff (.e_sto_con 11 "A" "bat" "Elec") = 1 ∧
      (11 : ℤ) ∉ ([10, 12] : List ℤ) ∧ (12 : ℤ) ∈ tmSteps [10, 12] := by
  refine ⟨_, _, rfl, ?_, ?_, by decide, by decide⟩
  · norm_num [exSto, coeff_ofVar]
    rw [if_neg (fun h => MVar.noConfusion h), if_neg (fun h => MVar.noConfusion h)]
    norm_num
  · norm_num [exSto, coeff_ofVar]
    rw [if_neg (fun h => MVar.noConfusion h), if_neg (fun h => MVar.noConfusion h)]
    norm_num

/-- C2 (amended): for every storage tuple and modelled timestep `t`, the
generated state-transition constraint is
`content[t] = content[t-1] + input[t]*eff_in*dt - output[t]/eff_out*dt`,
where `t-1` is integer arithmetic on the timestep identifier (coinciding
with the ordered predecessor only for gap-free consecutive horizons); the
constraint references exactly `content[t-1], input[t], output[t],
content[t]` with coefficients `1, eff_in*dt, -dt/eff_out, -1`. -/
theorem C2_storage_state (d : Data) (ts : List ℤ) (dt : ℚ) (s : StoRow) (tm : ℤ)
    (hs : s ∈ d.storage) (htm : tm ∈ tmSteps ts) :
    def_storage_state_rule dt tm s ∈ def_storage_state_cons d ts dt ∧
    ∃ L R, def_storage_state_rule dt tm s = .eqC L R ∧
      (R - L).coeff (.e_sto_con (tm - 1) s.sit s.sto s.com) = 1 ∧
      (R - L).coeff (.e_sto_in tm s.sit s.sto s.com) = s.eff_in * dt ∧
      (R - L).coeff (.e_sto_out tm s.sit s.sto s.com) = -(dt / s.eff_out) ∧
      (R - L).coeff (.e_sto_con tm s.sit s.sto s.com) = -1 ∧
      (∀ v, v ≠ .e_sto_con (tm - 1) s.sit s.sto s.com →
        v ≠ .e_sto_in tm s.sit s.sto s.com →
        v ≠ .e_sto_out tm s.sit s.sto s.com →
        v ≠ .e_sto_con tm s.sit s.sto s.com →
        (R - L).coeff v = 0) := by
  have hne : tm - 1 ≠ tm := by omega
  have hne' : tm ≠ tm - 1 := by omega
  constructor
  · exact List.mem_flatMap.mpr ⟨tm, htm, List.mem_map.mpr ⟨s, hs, rfl⟩⟩
  · refine ⟨_, _, rfl, ?_, ?_, ?_, ?_, ?_⟩
    · simp [coeff_ofVar, hne]
    · simp [coeff_ofVar]
    · simp [coeff_ofVar, div_eq_mul_inv]; ring
    · simp [coeff_ofVar, hne']
    · intro v h1 h2 h3 h4
      simp [coeff_ofVar, h1, h2, h3, h4]

/-- C2 witness: the amended statement at the sample storage row, horizon
`[0, 1, 2]`, `dt = 1`, modelled timestep 1. -/
theorem C2_storage_state_witness :
    def_storage_state_rule 1 1 exSto ∈ def_storage_state_cons exData [0, 1, 2] 1 ∧
    ∃ L R, def_storage_state_rule 1 1 exSto = .eqC L R ∧
      (R - L).coeff (.e_sto_con (1 - 1) exSto.sit exSto.sto exSto.com) = 1 ∧
      (R - L).coeff (.e_sto_in 1 exSto.sit exSto.sto exSto.com) = exSto.eff_in * 1 ∧
      (R - L).coeff (.e_sto_out 1 exSto.sit exSto.sto exSto.com) = -(1 / exSto.eff_out) ∧
      (R - L).coeff (.e_sto_con 1 exSto.sit exSto.sto exSto.com) = -1 ∧
      (∀ v, v ≠ .e_sto_con (1 - 1) exSto.sit exSto.sto exSto.com →
        v ≠ .e_sto_in 1 exSto.sit exSto.sto exSto.com →
        v ≠ .e_sto_out 1 exSto.sit exSto.sto exSto.com →
        v ≠ .e_sto_con 1 exSto.sit exSto.sto exSto.com →
        (R - L).coeff v = 0) :=
  C2_storage_state exData [0, 1, 2] 1 exSto 1 (by simp [exData]) (by decide)

/-- C3 counterexample: the input commodity `Wind` of the sample wind process
is supply-intermittent, yet the generic output-by-capacity inequality is
still generated for that process — the intermittent-supply constraint does
not suppress it. -/
theorem C3_counterexample_no_suppression :
    com_supim exData exProWind.coin = true ∧
    res_process_output_by_capacity_rule 1 exProWind ∈
      res_process_output_by_capacity_cons exData [0, 1] ∧
    res_process_output_by_capacity_rule 1 exProWind = Con.leC
      (ofVar (.e_pro_out 1 "A" "wt" "Wind" "Elec"))
      (ofVar (.cap_pro "A" "wt" "Wind" "Elec")) := by
  refine ⟨by decide, ?_, rfl⟩
  exact List.mem_flatMap.mpr ⟨1, by decide,
    List.mem_map.mpr ⟨exProWind, by simp [exData], rfl⟩⟩

/-- C3 (amended): for every process whose input commodity is
supply-intermittent, the constraint `input = total capacity * availability`
is generated at every modelled timestep, and skipped for all other
processes; the generic `output <= total capacity` inequality is generated
for every process at every modelled timestep — including intermittent-supply
processes, for which it is redundant but not suppressed. -/
theorem C3_intermittent_supply (d : Data) (ts : List ℤ) (p : ProRow) (tm : ℤ)
    (hp : p ∈ d.process) (htm : tm ∈ tmSteps ts) :
    (com_supim d p.coin = true →
      def_intermittent_supply_rule d tm p = some (.eqC
        (ofVar (.e_pro_in tm p.sit p.pro p.coin p.cout))
        ((ofVar (.cap_pro p.sit p.pro p.coin p.cout)).scale
          (d.supim tm p.sit p.coin))) ∧
      ∀ con, def_intermittent_supply_rule d tm p = some con →
        con ∈ def_intermittent_supply_cons d ts) ∧
    (com_supim d p.coin = false → def_intermittent_supply_rule d tm p = none) ∧
    res_process_output_by_capacity_rule tm p ∈
      res_process_output_by_capacity_cons d ts := by
  refine ⟨?_, ?_, ?_⟩
  · intro h
    constructor
    · simp [def_intermittent_supply_rule, h]
    · intro con hcon
      exact List.mem_flatMap.mpr ⟨tm, htm, List.mem_filterMap.mpr ⟨p, hp, hcon⟩⟩
  · intro h
    simp [def_intermittent_supply_rule, h]
  · exact List.mem_flatMap.mpr ⟨tm, htm, List.mem_map.mpr ⟨p, hp, rfl⟩⟩

/-- C3 witness: the amended statement at the sample wind process, horizon
`[0, 1]`, modelled timestep 1. -/
theorem C3_intermittent_supply_witness :
    (com_supim exData exProWind.coin = true →
      def_intermittent_supply_rule exData 1 exProWind = some (.eqC
        (ofVar (.e_pro_in 1 exProWind.sit exProWind.pro exProWind.coin
          exProWind.cout))
        ((ofVar (.cap_pro exProWind.sit exProWind.pro exProWind.coin
          exProWind.cout)).scale (exData.supim 1 exProWind.sit exProWind.coin))) ∧
      ∀ con, def_intermittent_supply_rule exData 1 exProWind = some con →
        con ∈ def_intermittent_supply_cons exData [0, 1]) ∧
    (com_supim exData exProWind.coin = false →
      def_intermittent_supply_rule exData 1 exProWind = none) ∧
    res_process_output_by_capacity_rule 1 exProWind ∈
      res_process_output_by_capacity_cons exData [0, 1] :=
  C3_intermittent_supply exData [0, 1] exProWind 1 (by simp [exData]) (by decide)

/-- C4: for every storage tuple, the boundary rule generates at the first
timestep of the horizon an equality binding the content to total storage
capacity (installed plus new, by the capacity identity) times the
initial-fill fraction, at the last timestep a `>=` inequality against the
same bound, and no constraint at any interior timestep. -/
theorem C4_initial_final_storage (d : Data) (ts : List ℤ) (s : StoRow) (t : ℤ)
    (hs : s ∈ d.storage) (ht : t ∈ ts) :
    (ts.head? = some t →
      res_initial_and_final_storage_state_rule ts t s = some (.eqC
        (ofVar (.e_sto_con t s.sit s.sto s.com))
        ((ofVar (.cap_sto_c s.sit s.sto s.com)).scale s.init))) ∧
    (ts.head? ≠ some t → ts.getLast? = some t →
      res_initial_and_final_storage_state_rule ts t s = some (.geC
        (ofVar (.e_sto_con t s.sit s.sto s.com))
        ((ofVar (.cap_sto_c s.sit s.sto s.com)).scale s.init))) ∧
    (ts.head? ≠ some t → ts.getLast? ≠ some t →
      res_initial_and_final_storage_state_rule ts t s = none) ∧
    (∀ con, res_initial_and_final_storage_state_rule ts t s = some con →
      con ∈ res_initial_and_final_storage_state_cons d ts) := by
  refine ⟨?_, ?_, ?_, ?_⟩
  · intro h; simp [res_initial_and_final_storage_state_rule, h]
  · intro h1 h2; simp [res_initial_and_final_storage_state_rule, h1, h2]
  · intro h1 h2; simp [res_initial_and_final_storage_state_rule, h1, h2]
  · intro con hcon
    exact List.mem_flatMap.mpr ⟨t, ht, List.mem_filterMap.mpr ⟨s, hs, hcon⟩⟩

/-- C4 witness: on the horizon `[0, 1, 2]` the sample storage row gets an
equality at timestep 0, an inequality at timestep 2, and no constraint at
the interior timestep 1. -/
theorem C4_initial_final_storage_witness :
    res_initial_and_final_storage_state_rule [0, 1, 2] 0 exSto = some (.eqC
      (ofVar (.e_sto_con 0 exSto.sit exSto.sto exSto.com))
      ((ofVar (.cap_sto_c exSto.sit exSto.sto exSto.com)).scale exSto.init)) ∧
    res_initial_and_final_storage_state_rule [0, 1, 2] 2 exSto = some (.geC
      (ofVar (.e_sto_con 2 exSto.sit exSto.sto exSto.com))
      ((ofVar (.cap_sto_c exSto.sit exSto.sto exSto.com)).scale exSto.init)) ∧
    res_initial_and_final_storage_state_rule [0, 1, 2] 1 exSto = none :=
  ⟨(C4_initial_final_storage exData [0, 1, 2] exSto 0 (by simp [exData])
      (by decide)).1 (by decide),
   (C4_initial_final_storage exData [0, 1, 2] exSto 2 (by simp [exData])
      (by decide)).2.1 (by decide) (by decide),
   (C4_initial_final_storage exData [0, 1, 2] exSto 1 (by simp [exData])
      (by decide)).2.2.1 (by decide) (by decide)⟩

/-- C8 witness: `Inv` is accepted, `Depreciation` is rejected, and a build
handed `Depreciation` returns no model. -/
theorem C8_cost_types_witness :
    (∃ con, def_costs_rule exData [0, 1] 1 "Inv" = .ok con) ∧
    def_costs_rule exData [0, 1] 1 "Depreciation" =
      .error "NotImplementedError: Unknown cost type." ∧
    ∀ mc, buildModelWith exData [0, 1] 1 ["Depreciation"] ≠ .ok mc := by
  have h := C8_cost_types exData [0, 1] 1
  exact ⟨h.1 "Inv" (by simp [cost_type]),
    h.2.1 "Depreciation" (by decide),
    h.2.2 ["Depreciation"] (by simp)⟩

end Urbs
